import Mathlib

/-!
Verification of the content-provider queueing/processing core of
Notebook Navigator (`src/services/content/BaseContentProvider.ts`).

The TypeScript class `BaseContentProvider` is shallow-embedded as a state
record `PState` together with a step function over an `Event` type.  Each
event corresponds to a synchronous stretch of the source between two
`await` points (or to an externally triggered call such as `queueFiles`,
`startProcessing`, `stopProcessing`, the debounce timer firing, or the
retry timer firing).  JavaScript `Set`/`Map` objects are modelled as
insertion-ordered lists; `Date.now()` is an explicit parameter; the
abstract provider hooks (`needsProcessing`, `processFile`, the vault
lookup and the database mtime lookup) are environment inputs carried on
the events.  A ghost field `writeLog` records the captured session of
every database write actually issued by
`batchUpdateFileContentAndProviderProcessedMtimes`.
-/

namespace NotebookNavigator

/-- Obsidian `TFile`: we retain the two fields the core reads, the vault
path and the modification time (`file.path`, `file.stat.mtime`). -/
structure TFile where
  path : String
  mtime : Nat
deriving DecidableEq, Repr

/-- `interface ContentJob { file: TFile; path: string[] }`; the `path`
field holds `file.path.split('/')`. -/
structure ContentJob where
  file : TFile
  pathSegments : List String
deriving DecidableEq, Repr

/-- `ContentProviderProcessResult`.  The `update` payload
(`ContentProviderUpdate`) is produced by the abstract provider and only
ever forwarded to the database write, so it is abstracted to its `path`
field. -/
structure ContentProviderProcessResult where
  update : Option String
  processed : Bool
deriving DecidableEq, Repr

/-- Outcome of one `processFile` call inside the `Promise.all` map:
either the provider returned a result, or it threw. -/
inductive Outcome where
  | success (r : ContentProviderProcessResult)
  | thrown
deriving DecidableEq

/-- The per-job `try`/`catch` in `processNextBatch` (lines 371-385): a
throwing `processFile` is converted to `{ update: null, processed: false }`. -/
def outcomeResult : Outcome → ContentProviderProcessResult
  | .success r => r
  | .thrown => ⟨none, false⟩

/-- One value of `retryState`: `{ attempts: number; nextRetryAt: number }`. -/
structure RetryEntry where
  attempts : Nat
  nextRetryAt : Nat
deriving DecidableEq, Repr

/-- One element of `activeJobs` in `processNextBatch`: the job plus the
`expectedProviderMtime` captured from the database record.  (`fileData`
itself is only consumed by the abstract hooks and is not retained.) -/
structure ActiveJob where
  job : ContentJob
  expectedProviderMtime : Nat
deriving DecidableEq, Repr

/-- Phase of an in-flight `processNextBatch` call, i.e. which `await`
point its continuation is parked at. -/
inductive BatchPhase where
  /-- at the top of the chunk loop, about to test the break condition -/
  | chunking
  /-- a `Promise.all` over one parallel chunk has been dispatched -/
  | inflight
  /-- the chunk loop has exited; about to decide on the database write -/
  | writing
  /-- about to run the `finally` block -/
  | finalizing
deriving DecidableEq, Repr

/-- The captured local state of one in-flight `processNextBatch` call:
its captured `session`, its own `AbortController` signal, `activeJobs`,
and the accumulating `updates` / `processedMtimeUpdates` arrays.
`remaining`/`chunk` track progress through the chunk loop. -/
structure BatchCtx where
  id : Nat
  session : Nat
  signalAborted : Bool
  activeJobs : List ActiveJob
  remaining : List ActiveJob
  chunk : List ActiveJob
  updates : List String
  processedMtimeUpdates : List (String × Nat × Nat)
  phase : BatchPhase
deriving DecidableEq, Repr

/-- The fields of `BaseContentProvider`, plus bookkeeping for in-flight
batches (`batches`, `abortOwner`, `nextCtxId`) and the ghost `writeLog`.
`abortOwner` models `this.abortController`: the id of the batch whose
controller the field currently references, if any. -/
structure PState where
  queue : List ContentJob
  isProcessing : Bool
  queueDebounceTimer : Bool
  currentBatchSettings : Option Nat
  processingFiles : List String
  queuedFiles : List String
  dirtyFilesDuringProcessing : List (String × TFile)
  stopped : Bool
  processingSession : Nat
  retryTimer : Option (Nat × Nat)
  retryState : List (String × RetryEntry)
  batches : List BatchCtx
  abortOwner : Option Nat
  nextCtxId : Nat
  writeLog : List Nat
deriving DecidableEq, Repr

def QUEUE_BATCH_SIZE : Nat := 100
def PARALLEL_LIMIT : Nat := 10
/-- `Number.MAX_SAFE_INTEGER` -/
def RETRY_UNSCHEDULED_AT : Nat := 2 ^ 53 - 1
def RETRY_INITIAL_DELAY_MS : Nat := 1000
def RETRY_MAX_DELAY_MS : Nat := 30000
def RETRY_MAX_ATTEMPTS : Nat := 5

/-! JavaScript `Set`/`Map` as insertion-ordered lists. -/

/-- `Set.add`: appends unless already present. -/
def setAdd (s : List String) (p : String) : List String :=
  if p ∈ s then s else s ++ [p]

/-- `Set.delete`. -/
def setDel (s : List String) (p : String) : List String :=
  s.filter (fun q => q ≠ p)

/-- `Map.get`. -/
def mapGet {α : Type} : List (String × α) → String → Option α
  | [], _ => none
  | (k', v) :: rest, k => if k' = k then some v else mapGet rest k

/-- `Map.set`: overwrites in place, else appends. -/
def mapSet {α : Type} : List (String × α) → String → α → List (String × α)
  | [], k, v => [(k, v)]
  | (k', v') :: rest, k, v =>
    if k' = k then (k, v) :: rest else (k', v') :: mapSet rest k v

/-- `Map.delete`. -/
def mapDel {α : Type} (m : List (String × α)) (k : String) : List (String × α) :=
  m.filter (fun e => e.1 ≠ k)

def mapKeys {α : Type} (m : List (String × α)) : List String :=
  m.map (fun e => e.1)

/-! The retry scheduler (`clearRetryTimer` … `flushRetries`). -/

/-- `clearRetryTimer()`. -/
def clearRetryTimerF (st : PState) : PState :=
  { st with retryTimer := none }

/-- `clearRetryState()`. -/
def clearRetryStateF (st : PState) : PState :=
  { clearRetryTimerF st with retryState := [] }

/-- The scan in `scheduleRetryTimer` for the smallest `nextRetryAt`. -/
def minNextRetryAt (rs : List (String × RetryEntry)) : Nat :=
  rs.foldl (fun m e => if e.2.nextRetryAt < m then e.2.nextRetryAt else m)
    RETRY_UNSCHEDULED_AT

/-- `scheduleRetryTimer(session)`: arms the shared timer at the earliest
pending `nextRetryAt`, clearing it when stopped, stale, or nothing is
scheduled.  The timer value records the session the callback captured
and the target time. -/
def scheduleRetryTimerF (st : PState) (session : Nat) : PState :=
  if st.stopped ∨ st.processingSession ≠ session ∨ st.retryState = [] then
    clearRetryTimerF st
  else
    let nextAt := minNextRetryAt st.retryState
    if nextAt = RETRY_UNSCHEDULED_AT then clearRetryTimerF st
    else { st with retryTimer := some (session, nextAt) }

/-- `clearRetryForPath(path)`. -/
def clearRetryForPathF (st : PState) (path : String) : PState :=
  if (mapGet st.retryState path).isNone then st
  else
    scheduleRetryTimerF { st with retryState := mapDel st.retryState path }
      st.processingSession

/-- The backoff computation on line 162:
`Math.min(RETRY_INITIAL_DELAY_MS * 2 ** (attempts - 1), RETRY_MAX_DELAY_MS)`. -/
def retryDelay (attempts : Nat) : Nat :=
  min (RETRY_INITIAL_DELAY_MS * 2 ^ (attempts - 1)) RETRY_MAX_DELAY_MS

/-- `scheduleRetry(file, session)`. -/
def scheduleRetryF (st : PState) (file : TFile) (session : Nat) (now : Nat) :
    PState :=
  if st.stopped ∨ st.processingSession ≠ session then st
  else
    let existing := mapGet st.retryState file.path
    let attempts := match existing with
      | some e => e.attempts + 1
      | none => 1
    if attempts > RETRY_MAX_ATTEMPTS then
      match existing with
      | some _ =>
        scheduleRetryTimerF
          { st with retryState := mapDel st.retryState file.path } session
      | none => st
    else
      scheduleRetryTimerF
        { st with retryState :=
            mapSet st.retryState file.path ⟨attempts, now + retryDelay attempts⟩ }
        session

/-- `startProcessing(settings)`: clears the stopped flag, stores the
settings, and (re)arms the debounce timer. -/
def startProcessingF (st : PState) (settings : Nat) : PState :=
  { st with stopped := false, currentBatchSettings := some settings,
            queueDebounceTimer := true }

/-- The `for (const file of files)` loop body of `queueFiles` (lines
255-264), threading the accumulated `newJobs`, the live `queuedFiles`
set and the live `dirtyFilesDuringProcessing` map. -/
def qfLoop (processing : List String) :
    List TFile → List ContentJob → List String → List (String × TFile) →
    List ContentJob × List String × List (String × TFile)
  | [], jobs, qf, dirty => (jobs, qf, dirty)
  | f :: rest, jobs, qf, dirty =>
    if f.path ∈ processing then
      qfLoop processing rest jobs qf (mapSet dirty f.path f)
    else if f.path ∈ qf then
      qfLoop processing rest jobs qf dirty
    else
      qfLoop processing rest (jobs ++ [⟨f, f.path.splitOn "/"⟩])
        (qf ++ [f.path]) dirty

/-- `queueFiles(files)`. -/
def queueFilesF (st : PState) (files : List TFile) : PState :=
  if st.stopped then st
  else
    let r := qfLoop st.processingFiles files [] st.queuedFiles
      st.dirtyFilesDuringProcessing
    let st' := { st with queuedFiles := r.2.1,
                         dirtyFilesDuringProcessing := r.2.2 }
    if r.1 = [] then st'
    else
      let st'' := { st' with queue := st'.queue ++ r.1 }
      if ¬st''.isProcessing ∧ st''.queueDebounceTimer = false ∧
          st''.currentBatchSettings.isSome then
        startProcessingF st'' (st''.currentBatchSettings.getD 0)
      else st''

/-- One iteration of the `flushRetries` loop, retry-entry side: an entry
whose `nextRetryAt` has not elapsed is kept as is; an elapsed entry is
kept with `nextRetryAt` reset to the unscheduled sentinel when its path
still resolves to a live file, and dropped otherwise. -/
def flushKeepEntry (now : Nat) (vault : String → Option TFile)
    (e : String × RetryEntry) : Option (String × RetryEntry) :=
  if now < e.2.nextRetryAt then some e
  else match vault e.1 with
    | some _ => some (e.1, { e.2 with nextRetryAt := RETRY_UNSCHEDULED_AT })
    | none => none

/-- One iteration of the `flushRetries` loop, `filesToRetry` side: an
elapsed entry whose path resolves contributes the resolved file. -/
def flushFileEntry (now : Nat) (vault : String → Option TFile)
    (e : String × RetryEntry) : Option TFile :=
  if now < e.2.nextRetryAt then none else vault e.1

/-- `flushRetries(session)`: collects the elapsed entries, re-resolving
each path against the vault; live files are re-enqueued with their
`nextRetryAt` reset to the unscheduled sentinel, missing files are
dropped; finally the timer is rearmed. -/
def flushRetriesF (st : PState) (session now : Nat)
    (vault : String → Option TFile) : PState :=
  if st.stopped ∨ st.processingSession ≠ session ∨ st.retryState = [] then
    clearRetryStateF st
  else
    let rs' := st.retryState.filterMap (flushKeepEntry now vault)
    let filesToRetry := st.retryState.filterMap (flushFileEntry now vault)
    let st' := { st with retryState := rs' }
    let st'' := if filesToRetry ≠ [] then queueFilesF st' filesToRetry else st'
    scheduleRetryTimerF st'' session

/-! The batch processor (`processNextBatch`, lines 313-471), cut at its
`await` points. -/

/-- The `finally` block (lines 434-469): with the captured session still
current the batch's `processingFiles` marks are removed; if additionally
neither stopped nor aborted, the dirty-during-processing map is drained
and re-enqueued; `isProcessing` is reset and the continuation record is
discarded.  (The trailing re-scheduling of the next batch maps to the
always-enabled `batchBegin` event.) -/
def finallyCore (st : PState) (ctx : BatchCtx) : PState :=
  let st1 :=
    if st.processingSession = ctx.session then
      let pf := ctx.activeJobs.foldl (fun s aj => setDel s aj.job.file.path)
        st.processingFiles
      { st with processingFiles := pf }
    else st
  let st2 :=
    if st.processingSession = ctx.session ∧ ¬st.stopped ∧ ¬ctx.signalAborted then
      let dirtyFiles := st1.dirtyFilesDuringProcessing.map (fun e => e.2)
      let stc := { st1 with dirtyFilesDuringProcessing := [] }
      if dirtyFiles ≠ [] then queueFilesF stc dirtyFiles else stc
    else if st.processingSession = ctx.session then
      { st1 with dirtyFilesDuringProcessing := [] }
    else st1
  { st2 with isProcessing := false,
             batches := st2.batches.filter (fun b => b.id ≠ ctx.id) }

/-- The synchronous prefix of `processNextBatch` (lines 313-352): the
entry guard, capturing the session, creating a fresh `AbortController`,
splicing up to `QUEUE_BATCH_SIZE` jobs off the queue, dropping them from
`queuedFiles`, filtering by `needsProcessing` (the environment oracle
`needs`), and marking the surviving jobs as processing.  When no job
needs processing the early `return` runs the `finally` block in the same
synchronous stretch. -/
def batchBeginF (st : PState) (needs : String → Bool) (dbm : String → Nat) :
    PState :=
  if st.stopped ∨ st.isProcessing ∨ st.queue = [] ∨
      st.currentBatchSettings = none then st
  else
    let session := st.processingSession
    let ctxId := st.nextCtxId
    let batch := st.queue.take QUEUE_BATCH_SIZE
    let st1 := { st with
      isProcessing := true,
      abortOwner := some ctxId,
      nextCtxId := st.nextCtxId + 1,
      queue := st.queue.drop QUEUE_BATCH_SIZE,
      queuedFiles := batch.foldl (fun s j => setDel s j.file.path) st.queuedFiles }
    let activeJobs := (batch.filter (fun j => needs j.file.path)).map
      (fun j => { job := j, expectedProviderMtime := dbm j.file.path : ActiveJob })
    if activeJobs = [] then
      finallyCore st1
        { id := ctxId, session := session, signalAborted := false,
          activeJobs := [], remaining := [], chunk := [], updates := [],
          processedMtimeUpdates := [], phase := .finalizing }
    else
      let pf := activeJobs.foldl (fun s aj => setAdd s aj.job.file.path)
        st1.processingFiles
      let st2 := { st1 with processingFiles := pf }
      { st2 with batches := st2.batches ++
          [{ id := ctxId, session := session, signalAborted := false,
             activeJobs := activeJobs, remaining := activeJobs, chunk := [],
             updates := [], processedMtimeUpdates := [], phase := .chunking }] }

/-- Replaces the continuation record with id `id`. -/
def updateCtx (st : PState) (id : Nat) (f : BatchCtx → BatchCtx) : PState :=
  { st with batches := st.batches.map (fun b => if b.id = id then f b else b) }

/-- The top of one chunk-loop iteration (lines 366-369): the break
condition `stopped || aborted || session mismatch` (or loop exhaustion)
sends the batch on to the write decision; otherwise the next
`PARALLEL_LIMIT`-sized chunk is dispatched. -/
def chunkDispatchF (st : PState) (id : Nat) : PState :=
  match st.batches.find? (fun b => b.id = id) with
  | none => st
  | some b =>
    if b.phase ≠ BatchPhase.chunking then st
    else if st.stopped ∨ b.signalAborted ∨ st.processingSession ≠ b.session ∨
        b.remaining = [] then
      updateCtx st id (fun c => { c with phase := .writing })
    else
      updateCtx st id (fun c =>
        { c with chunk := c.remaining.take PARALLEL_LIMIT,
                 remaining := c.remaining.drop PARALLEL_LIMIT,
                 phase := .inflight })

/-- The `results.forEach` body (lines 388-408) for one result: under a
current, unstopped, unaborted session an unprocessed result registers
the file for retry and a processed one clears its retry entry; then —
unconditionally — a processed result stages a
`(path, mtimeAtStart, expectedPreviousMtime)` record and a non-null
update is staged for the batched write. -/
def handleResult (session : Nat) (aborted : Bool) (now : Nat)
    (acc : PState × List String × List (String × Nat × Nat))
    (item : ActiveJob × ContentProviderProcessResult) :
    PState × List String × List (String × Nat × Nat) :=
  let st := acc.1
  let aj := item.1
  let r := item.2
  let st' :=
    if st.processingSession = session ∧ ¬st.stopped ∧ ¬aborted then
      if ¬r.processed then scheduleRetryF st aj.job.file session now
      else clearRetryForPathF st aj.job.file.path
    else st
  let mts' :=
    if r.processed then
      acc.2.2 ++ [(aj.job.file.path, aj.job.file.mtime, aj.expectedProviderMtime)]
    else acc.2.2
  let ups' := match r.update with
    | some u => acc.2.1 ++ [u]
    | none => acc.2.1
  (st', ups', mts')

/-- Completion of one dispatched chunk (lines 370-411): each job's
outcome is converted by the per-job `try`/`catch`, the results are
handled in order, the staged updates are appended to the batch's
accumulators, and the loop returns to its top (after the yield to the
event loop). -/
def chunkCompleteF (st : PState) (id : Nat) (outcomes : String → Outcome)
    (now : Nat) : PState :=
  match st.batches.find? (fun b => b.id = id) with
  | none => st
  | some b =>
    if b.phase ≠ BatchPhase.inflight then st
    else
      let results := b.chunk.map
        (fun aj => (aj, outcomeResult (outcomes aj.job.file.path)))
      let folded := results.foldl (handleResult b.session b.signalAborted now)
        (st, [], [])
      updateCtx folded.1 id (fun c =>
        { c with updates := c.updates ++ folded.2.1,
                 processedMtimeUpdates := c.processedMtimeUpdates ++ folded.2.2,
                 chunk := [], phase := .chunking })

/-- The write decision (lines 414-427): the batched database write is
issued exactly when the captured session is still current, the provider
is neither stopped nor aborted, something was staged, and the host is
not shutting down.  An issued write appends its captured session to the
ghost `writeLog`. -/
def writeStepF (st : PState) (id : Nat) (shutdown : Bool) : PState :=
  match st.batches.find? (fun b => b.id = id) with
  | none => st
  | some b =>
    if b.phase ≠ BatchPhase.writing then st
    else
      let st' :=
        if ¬(st.stopped ∨ b.signalAborted ∨ st.processingSession ≠ b.session) ∧
            (b.updates ≠ [] ∨ b.processedMtimeUpdates ≠ []) ∧ ¬shutdown then
          { st with writeLog := st.writeLog ++ [b.session] }
        else st
      updateCtx st' id (fun c => { c with phase := .finalizing })

/-- The `finally` block as a resumption of an in-flight batch. -/
def finallyStepF (st : PState) (id : Nat) : PState :=
  match st.batches.find? (fun b => b.id = id) with
  | none => st
  | some b =>
    if b.phase ≠ BatchPhase.finalizing then st else finallyCore st b

/-- `stopProcessing()` (lines 473-494): bumps the session, sets the
stopped flag, aborts and drops the current controller, clears the
debounce timer, clears all retry state, and empties the queue and every
tracking structure. -/
def stopProcessingF (st : PState) : PState :=
  let st1 := { st with processingSession := st.processingSession + 1,
                       stopped := true }
  let st2 := match st1.abortOwner with
    | some i =>
      let bs := st1.batches.map (fun (b : BatchCtx) =>
        if b.id = i then { b with signalAborted := true } else b)
      { st1 with batches := bs, abortOwner := none }
    | none => st1
  let st3 := { st2 with queueDebounceTimer := false }
  let st4 := clearRetryStateF st3
  { st4 with isProcessing := false, queue := [], processingFiles := [],
             queuedFiles := [], dirtyFilesDuringProcessing := [] }

/-- The retry timer callback (lines 188-191): fires once its target time
has been reached, clears the timer handle and runs `flushRetries` with
the session it captured when armed. -/
def retryFireF (st : PState) (now : Nat) (vault : String → Option TFile) :
    PState :=
  match st.retryTimer with
  | none => st
  | some t =>
    if t.2 ≤ now then
      flushRetriesF { st with retryTimer := none } t.1 now vault
    else st

/-- One externally observable event: a public method call, a timer
firing, or the resumption of an in-flight batch at one of its `await`
points.  Environment inputs (the `needsProcessing` oracle, database
mtimes, `processFile` outcomes, `Date.now()`, the vault lookup and the
shutdown flag) ride on the event. -/
inductive Event where
  | queueFiles (files : List TFile)
  | startProcessing (settings : Nat)
  | onSettingsChanged (settings : Nat)
  | debounceFire
  | batchBegin (needs : String → Bool) (dbm : String → Nat)
  | chunkDispatch (id : Nat)
  | chunkComplete (id : Nat) (outcomes : String → Outcome) (now : Nat)
  | writeStep (id : Nat) (shutdown : Bool)
  | finallyStep (id : Nat)
  | stopProcessing
  | retryFire (now : Nat) (vault : String → Option TFile)

/-- The step function: dispatches one event against the state. -/
def stepE (e : Event) (st : PState) : PState :=
  match e with
  | .queueFiles files => queueFilesF st files
  | .startProcessing settings => startProcessingF st settings
  | .onSettingsChanged settings => { st with currentBatchSettings := some settings }
  | .debounceFire => { st with queueDebounceTimer := false }
  | .batchBegin needs dbm => batchBeginF st needs dbm
  | .chunkDispatch id => chunkDispatchF st id
  | .chunkComplete id outcomes now => chunkCompleteF st id outcomes now
  | .writeStep id shutdown => writeStepF st id shutdown
  | .finallyStep id => finallyStepF st id
  | .stopProcessing => stopProcessingF st
  | .retryFire now vault => retryFireF st now vault

/-- Runs a list of events left to right. -/
def run (es : List Event) (st : PState) : PState :=
  es.foldl (fun s e => stepE e s) st

/-- The state of a freshly constructed provider. -/
def initState : PState :=
  { queue := [], isProcessing := false, queueDebounceTimer := false,
    currentBatchSettings := none, processingFiles := [], queuedFiles := [],
    dirtyFilesDuringProcessing := [], stopped := false, processingSession := 0,
    retryTimer := none, retryState := [], batches := [], abortOwner := none,
    nextCtxId := 0, writeLog := [] }

/-- A state the provider can actually be driven into. -/
def Reachable (st : PState) : Prop :=
  ∃ es : List Event, run es initState = st

/-- The bookkeeping invariant tying the three tracking structures to the
queue: the queued-files set lists exactly the queued paths in order,
without duplicates; a stopped provider has an empty queue; queued paths
are never simultaneously marked processing; and every
dirty-during-processing key is currently marked processing. -/
def Inv (st : PState) : Prop :=
  st.queuedFiles = st.queue.map (fun j => j.file.path) ∧
  st.queuedFiles.Nodup ∧
  (st.stopped = true → st.queue = []) ∧
  (∀ p ∈ st.queuedFiles, p ∉ st.processingFiles) ∧
  (∀ p ∈ mapKeys st.dirtyFilesDuringProcessing, p ∈ st.processingFiles)

/-- Two states agreeing on every field other than `retryState` and
`retryTimer` (the only fields the retry-scheduler helpers write). -/
def RetryOnly (st st' : PState) : Prop :=
  st'.queue = st.queue ∧ st'.isProcessing = st.isProcessing ∧
  st'.queueDebounceTimer = st.queueDebounceTimer ∧
  st'.currentBatchSettings = st.currentBatchSettings ∧
  st'.processingFiles = st.processingFiles ∧
  st'.queuedFiles = st.queuedFiles ∧
  st'.dirtyFilesDuringProcessing = st.dirtyFilesDuringProcessing ∧
  st'.stopped = st.stopped ∧ st'.processingSession = st.processingSession ∧
  st'.batches = st.batches ∧ st'.abortOwner = st.abortOwner ∧
  st'.nextCtxId = st.nextCtxId ∧ st'.writeLog = st.writeLog

/-- A sample vault file used for concrete witnesses. -/
def fileA : TFile := ⟨"notes/a.md", 5⟩

/-- A second sample file at the same path (a later event object for the
same vault file). -/
def fileA2 : TFile := ⟨"notes/a.md", 9⟩

/-- Trace driving the provider into a state where `fileA` is mid-batch
and is then enqueued again: one batch is started over `fileA` and a
second `queueFiles` call arrives while it is in flight. -/
def traceDirtyWhileProcessing : List Event :=
  [.startProcessing 1, .queueFiles [fileA],
   .batchBegin (fun _ => true) (fun _ => 0), .queueFiles [fileA]]

/-- Trace leaving one job pending in the queue. -/
def traceOnePending : List Event :=
  [.startProcessing 1, .queueFiles [fileA]]

/-- An active job over `fileA`, for concrete witnesses. -/
def ajA : ActiveJob :=
  { job := { file := fileA, pathSegments := ["notes", "a.md"] },
    expectedProviderMtime := 0 }

/-- A batch continuation parked at its `finally` block, for witnesses. -/
def ctxFinalizing : BatchCtx :=
  { id := 7, session := 3, signalAborted := false, activeJobs := [ajA],
    remaining := [], chunk := [], updates := ["notes/a.md"],
    processedMtimeUpdates := [], phase := .finalizing }

/-- A provider state mid-`finally` whose dirty map holds `fileA2`. -/
def stFinalizing : PState :=
  { queue := [], isProcessing := true, queueDebounceTimer := false,
    currentBatchSettings := some 1, processingFiles := ["notes/a.md"],
    queuedFiles := [], dirtyFilesDuringProcessing := [("notes/a.md", fileA2)],
    stopped := false, processingSession := 3, retryTimer := none,
    retryState := [], batches := [ctxFinalizing], abortOwner := some 7,
    nextCtxId := 8, writeLog := [] }

/-- A provider state whose retry entry for `fileA` is at the last
allowed attempt. -/
def stMaxRetries : PState :=
  { initState with retryState := [("notes/a.md", ⟨5, 0⟩)] }

/-- A vault in which only `fileA` exists, for concrete witnesses. -/
def vaultA : String → Option TFile :=
  fun q => if q = "notes/a.md" then some fileA else none

/-- A batch continuation with one dispatched single-job chunk. -/
def ctxInflight : BatchCtx :=
  { id := 7, session := 3, signalAborted := false, activeJobs := [ajA],
    remaining := [], chunk := [ajA], updates := [],
    processedMtimeUpdates := [], phase := .inflight }

/-- A provider state whose batch is awaiting one chunk's results. -/
def stInflight : PState :=
  { stFinalizing with batches := [ctxInflight] }

/-! ### Lemmas about the `Set`/`Map` embeddings -/

theorem mem_setAdd {s : List String} {p q : String} :
    q ∈ setAdd s p ↔ q ∈ s ∨ q = p := by
  unfold setAdd
  split
  · rename_i h
    constructor
    · exact fun hq => Or.inl hq
    · rintro (hq | rfl) <;> [exact hq; exact h]
  · simp [List.mem_append]

theorem mem_setDel {s : List String} {p q : String} :
    q ∈ setDel s p ↔ q ∈ s ∧ q ≠ p := by
  unfold setDel
  simp

theorem foldl_setAdd_mem {as : List String} {s : List String} {q : String} :
    q ∈ as.foldl setAdd s ↔ q ∈ s ∨ q ∈ as := by
  induction as generalizing s with
  | nil => simp
  | cons a as ih =>
    simp only [List.foldl_cons, ih, mem_setAdd, List.mem_cons]
    tauto

theorem foldl_setDel_eq_filter (ps : List String) (s : List String) :
    ps.foldl setDel s = s.filter (fun q => q ∉ ps) := by
  induction ps generalizing s with
  | nil => simp
  | cons p ps ih =>
    simp only [List.foldl_cons, ih, setDel, List.filter_filter]
    apply List.filter_congr
    intro q _
    by_cases hq : q = p <;> simp [hq]

theorem mapGet_eq_none {α : Type} {m : List (String × α)} {p : String} :
    mapGet m p = none ↔ p ∉ mapKeys m := by
  induction m with
  | nil => simp [mapGet, mapKeys]
  | cons e m ih =>
    obtain ⟨k, v⟩ := e
    by_cases hk : k = p
    · subst hk
      simp [mapGet, mapKeys]
    · simp [mapGet, hk, ih, mapKeys, Ne.symm hk]

theorem mapGet_isSome_iff_mem {α : Type} {m : List (String × α)} {p : String} :
    (mapGet m p).isSome = true ↔ p ∈ mapKeys m := by
  rcases h : mapGet m p with _ | v
  · simpa [h] using (mapGet_eq_none (m := m) (p := p)).mp h
  · simp only [Option.isSome_some, true_iff]
    by_contra hmem
    rw [← mapGet_eq_none (m := m) (p := p)] at hmem
    simp [h] at hmem

theorem mapGet_mapSet_self {α : Type} (m : List (String × α)) (k : String)
    (v : α) : mapGet (mapSet m k v) k = some v := by
  induction m with
  | nil => simp [mapSet, mapGet]
  | cons e m ih =>
    obtain ⟨k', v'⟩ := e
    by_cases hk : k' = k
    · subst hk
      simp [mapSet, mapGet]
    · simp [mapSet, hk, mapGet, ih]

theorem mapGet_mapSet_ne {α : Type} (m : List (String × α)) {k q : String}
    (v : α) (h : q ≠ k) : mapGet (mapSet m k v) q = mapGet m q := by
  induction m with
  | nil => simp [mapSet, mapGet, Ne.symm h]
  | cons e m ih =>
    obtain ⟨k', v'⟩ := e
    by_cases hk : k' = k
    · subst hk
      simp [mapSet, mapGet, Ne.symm h]
    · by_cases hq : k' = q <;> simp [mapSet, hk, mapGet, hq, ih, h]

theorem mapGet_mapDel_self {α : Type} (m : List (String × α)) (k : String) :
    mapGet (mapDel m k) k = none := by
  rw [mapGet_eq_none]
  unfold mapDel mapKeys
  simp

theorem mapGet_mapDel_ne {α : Type} (m : List (String × α)) {k q : String}
    (h : q ≠ k) : mapGet (mapDel m k) q = mapGet m q := by
  induction m with
  | nil => rfl
  | cons e m ih =>
    obtain ⟨k', v'⟩ := e
    by_cases hk : k' = k
    · subst hk
      have hdel : mapDel ((k', v') :: m) k' = mapDel m k' := by
        simp [mapDel]
      rw [hdel, ih]
      simp [mapGet, Ne.symm h]
    · have hdel : mapDel ((k', v') :: m) k = (k', v') :: mapDel m k := by
        simp [mapDel, hk]
      rw [hdel]
      by_cases hq : k' = q
      · simp [mapGet, hq]
      · simp [mapGet, hq, ih]

theorem mem_mapKeys_mapSet {α : Type} {m : List (String × α)} {k q : String}
    {v : α} (h : q ∈ mapKeys (mapSet m k v)) : q ∈ mapKeys m ∨ q = k := by
  induction m with
  | nil => simpa [mapSet, mapKeys] using h
  | cons e m ih =>
    obtain ⟨k', v'⟩ := e
    by_cases hk : k' = k
    · subst hk
      exact Or.inl (by simpa [mapSet, mapKeys] using h)
    · simp only [mapSet, hk, if_false, mapKeys, List.map_cons, List.mem_cons] at h ⊢
      rcases h with h | h
      · exact Or.inl (Or.inl h)
      · rcases ih h with h' | h'
        · exact Or.inl (Or.inr h')
        · exact Or.inr h'

/-! ### The retry-scheduler helpers only touch `retryState`/`retryTimer` -/

theorem retryOnly_refl (st : PState) : RetryOnly st st := by
  unfold RetryOnly
  repeat' exact ⟨rfl, by first | rfl | repeat' constructor⟩

theorem retryOnly_trans {a b c : PState} (h1 : RetryOnly a b)
    (h2 : RetryOnly b c) : RetryOnly a c := by
  unfold RetryOnly at *
  obtain ⟨e1, e2, e3, e4, e5, e6, e7, e8, e9, e10, e11, e12, e13⟩ := h1
  obtain ⟨f1, f2, f3, f4, f5, f6, f7, f8, f9, f10, f11, f12, f13⟩ := h2
  exact ⟨f1.trans e1, f2.trans e2, f3.trans e3, f4.trans e4, f5.trans e5,
    f6.trans e6, f7.trans e7, f8.trans e8, f9.trans e9, f10.trans e10,
    f11.trans e11, f12.trans e12, f13.trans e13⟩

theorem retryOnly_clearRetryTimerF (st : PState) :
    RetryOnly st (clearRetryTimerF st) := by
  unfold RetryOnly clearRetryTimerF
  repeat' constructor

theorem retryOnly_clearRetryStateF (st : PState) :
    RetryOnly st (clearRetryStateF st) := by
  unfold RetryOnly clearRetryStateF clearRetryTimerF
  repeat' constructor

theorem retryOnly_retrySet (st : PState) (rs : List (String × RetryEntry)) :
    RetryOnly st { st with retryState := rs } := by
  unfold RetryOnly
  repeat' constructor

theorem retryOnly_scheduleRetryTimerF (st : PState) (session : Nat) :
    RetryOnly st (scheduleRetryTimerF st session) := by
  unfold scheduleRetryTimerF
  dsimp only
  split
  · exact retryOnly_clearRetryTimerF st
  · split
    · exact retryOnly_clearRetryTimerF st
    · unfold RetryOnly
      repeat' constructor

theorem retryOnly_clearRetryForPathF (st : PState) (p : String) :
    RetryOnly st (clearRetryForPathF st p) := by
  unfold clearRetryForPathF
  split
  · exact retryOnly_refl st
  · exact retryOnly_trans (retryOnly_retrySet st _)
      (retryOnly_scheduleRetryTimerF _ _)

theorem retryOnly_scheduleRetryF (st : PState) (file : TFile) (session now : Nat) :
    RetryOnly st (scheduleRetryF st file session now) := by
  unfold scheduleRetryF
  dsimp only
  split
  · exact retryOnly_refl st
  · split
    · split
      · exact retryOnly_trans (retryOnly_retrySet st _)
          (retryOnly_scheduleRetryTimerF _ _)
      · exact retryOnly_refl st
    · exact retryOnly_trans (retryOnly_retrySet st _)
        (retryOnly_scheduleRetryTimerF _ _)

/-- The state component of `handleResult` only touches retry fields. -/
theorem retryOnly_handleResult (session : Nat) (aborted : Bool) (now : Nat)
    (acc : PState × List String × List (String × Nat × Nat))
    (item : ActiveJob × ContentProviderProcessResult) :
    RetryOnly acc.1 (handleResult session aborted now acc item).1 := by
  unfold handleResult
  dsimp only
  split
  · split
    · exact retryOnly_scheduleRetryF _ _ _ _
    · exact retryOnly_clearRetryForPathF _ _
  · exact retryOnly_refl _

theorem retryOnly_foldl_handleResult (session : Nat) (aborted : Bool)
    (now : Nat) (items : List (ActiveJob × ContentProviderProcessResult))
    (acc : PState × List String × List (String × Nat × Nat)) :
    RetryOnly acc.1 (items.foldl (handleResult session aborted now) acc).1 := by
  induction items generalizing acc with
  | nil => exact retryOnly_refl _
  | cons it items ih =>
    exact retryOnly_trans (retryOnly_handleResult session aborted now acc it)
      (ih _)

/-- Retry functions leave `retryState` of their argument reachable:
`scheduleRetryTimerF` never changes `retryState`. -/
theorem scheduleRetryTimerF_retryState (st : PState) (session : Nat) :
    (scheduleRetryTimerF st session).retryState = st.retryState := by
  unfold scheduleRetryTimerF clearRetryTimerF
  dsimp only
  split
  · rfl
  · split <;> rfl


/-! ### Lemmas about `qfLoop` / `queueFilesF` -/

/-- The `queueFiles` loop appends a block `delta` of fresh jobs to its
job accumulator and their paths to the queued set; fresh jobs are never
for paths marked processing; the queued set stays duplicate-free; and
the dirty map only gains keys that are marked processing. -/
theorem qfLoop_delta (processing : List String) (files : List TFile)
    (jobs : List ContentJob) (qf : List String)
    (dirty : List (String × TFile)) :
    ∃ delta : List ContentJob,
      (qfLoop processing files jobs qf dirty).1 = jobs ++ delta ∧
      (qfLoop processing files jobs qf dirty).2.1 =
        qf ++ delta.map (fun j => j.file.path) ∧
      (∀ j ∈ delta, j.file.path ∉ processing ∧ ∃ f ∈ files, f.path = j.file.path) ∧
      (qf.Nodup → (qf ++ delta.map (fun j => j.file.path)).Nodup) ∧
      (∀ p ∈ mapKeys (qfLoop processing files jobs qf dirty).2.2,
        p ∈ mapKeys dirty ∨ p ∈ processing) := by
  induction files generalizing jobs qf dirty with
  | nil =>
    refine ⟨[], by simp [qfLoop], by simp [qfLoop], by simp, by simp, ?_⟩
    intro p hp
    exact Or.inl (by simpa [qfLoop] using hp)
  | cons f rest ih =>
    by_cases h1 : f.path ∈ processing
    · obtain ⟨delta, e1, e2, e3, e4, e5⟩ := ih jobs qf (mapSet dirty f.path f)
      refine ⟨delta, by simpa [qfLoop, h1] using e1,
        by simpa [qfLoop, h1] using e2, ?_, e4, ?_⟩
      · intro j hj
        obtain ⟨hnp, g, hg, hgp⟩ := e3 j hj
        exact ⟨hnp, g, List.mem_cons_of_mem _ hg, hgp⟩
      · intro p hp
        have hp' : p ∈ mapKeys (qfLoop processing rest jobs qf
            (mapSet dirty f.path f)).2.2 := by
          simpa [qfLoop, h1] using hp
        rcases e5 p hp' with h | h
        · rcases mem_mapKeys_mapSet h with h' | h'
          · exact Or.inl h'
          · exact Or.inr (h' ▸ h1)
        · exact Or.inr h
    · by_cases h2 : f.path ∈ qf
      · obtain ⟨delta, e1, e2, e3, e4, e5⟩ := ih jobs qf dirty
        refine ⟨delta, by simpa [qfLoop, h1, h2] using e1,
          by simpa [qfLoop, h1, h2] using e2, ?_, e4,
          fun p hp => e5 p (by simpa [qfLoop, h1, h2] using hp)⟩
        intro j hj
        obtain ⟨hnp, g, hg, hgp⟩ := e3 j hj
        exact ⟨hnp, g, List.mem_cons_of_mem _ hg, hgp⟩
      · obtain ⟨delta, e1, e2, e3, e4, e5⟩ :=
          ih (jobs ++ [⟨f, f.path.splitOn "/"⟩]) (qf ++ [f.path]) dirty
        refine ⟨⟨f, f.path.splitOn "/"⟩ :: delta, ?_, ?_, ?_, ?_,
          fun p hp => e5 p (by simpa [qfLoop, h1, h2] using hp)⟩
        · rw [show qfLoop processing (f :: rest) jobs qf dirty =
            qfLoop processing rest (jobs ++ [⟨f, f.path.splitOn "/"⟩])
              (qf ++ [f.path]) dirty by simp [qfLoop, h1, h2]]
          rw [e1]
          simp
        · rw [show qfLoop processing (f :: rest) jobs qf dirty =
            qfLoop processing rest (jobs ++ [⟨f, f.path.splitOn "/"⟩])
              (qf ++ [f.path]) dirty by simp [qfLoop, h1, h2]]
          rw [e2]
          simp
        · intro j hj
          rcases List.mem_cons.mp hj with rfl | hj'
          · exact ⟨h1, f, List.mem_cons_self _ _, rfl⟩
          · obtain ⟨hnp, g, hg, hgp⟩ := e3 j hj'
            exact ⟨hnp, g, List.mem_cons_of_mem _ hg, hgp⟩
        · intro hnd
          have hnd' : (qf ++ [f.path]).Nodup := by
            simp [List.nodup_append, hnd, h2]
          have := e4 hnd'
          simpa using this

/-- Path-count bookkeeping of the `queueFiles` loop: for a path not
marked processing, exactly one job is appended when the path is fresh
and occurs among the files, and none otherwise. -/
theorem qfLoop_count (processing : List String) (files : List TFile)
    (jobs : List ContentJob) (qf : List String)
    (dirty : List (String × TFile)) (p : String) (hp : p ∉ processing) :
    ((qfLoop processing files jobs qf dirty).1.countP
        (fun j => j.file.path = p)) =
      jobs.countP (fun j => j.file.path = p) +
        (if p ∈ qf then 0
         else if files.any (fun f => f.path = p) then 1 else 0) := by
  induction files generalizing jobs qf dirty with
  | nil => simp [qfLoop]
  | cons f rest ih =>
    by_cases h1 : f.path ∈ processing
    · have hfp : f.path ≠ p := fun h => hp (h ▸ h1)
      rw [show qfLoop processing (f :: rest) jobs qf dirty =
        qfLoop processing rest jobs qf (mapSet dirty f.path f) by
          simp [qfLoop, h1]]
      rw [ih jobs qf (mapSet dirty f.path f)]
      simp [List.any_cons, hfp]
    · by_cases h2 : f.path ∈ qf
      · rw [show qfLoop processing (f :: rest) jobs qf dirty =
          qfLoop processing rest jobs qf dirty by simp [qfLoop, h1, h2]]
        rw [ih jobs qf dirty]
        by_cases hfp : f.path = p
        · subst hfp
          simp [h2]
        · simp [List.any_cons, hfp]
      · rw [show qfLoop processing (f :: rest) jobs qf dirty =
          qfLoop processing rest (jobs ++ [⟨f, f.path.splitOn "/"⟩])
            (qf ++ [f.path]) dirty by simp [qfLoop, h1, h2]]
        rw [ih (jobs ++
            [({ file := f, pathSegments := f.path.splitOn "/" } : ContentJob)])
          (qf ++ [f.path]) dirty]
        by_cases hfp : f.path = p
        · subst hfp
          simp [h2, List.countP_append, List.countP_cons, List.mem_append]
        · have hpf : ¬p = f.path := fun h => hfp h.symm
          simp [List.countP_append, List.countP_cons, hfp, List.mem_append,
            List.any_cons, hpf]

/-- Membership in the queued set after the loop: present paths stay, and
a fresh unprocessed path occurring among the files is added. -/
theorem qfLoop_qf_mem (processing : List String) (files : List TFile)
    (jobs : List ContentJob) (qf : List String)
    (dirty : List (String × TFile)) (p : String)
    (h : p ∈ qf ∨ (p ∉ processing ∧ files.any (fun f => f.path = p))) :
    p ∈ (qfLoop processing files jobs qf dirty).2.1 := by
  induction files generalizing jobs qf dirty with
  | nil =>
    rcases h with h | h
    · simpa [qfLoop] using h
    · simp at h
  | cons f rest ih =>
    by_cases h1 : f.path ∈ processing
    · rw [show qfLoop processing (f :: rest) jobs qf dirty =
        qfLoop processing rest jobs qf (mapSet dirty f.path f) by
          simp [qfLoop, h1]]
      apply ih
      rcases h with h | ⟨hnp, hany⟩
      · exact Or.inl h
      · refine Or.inr ⟨hnp, ?_⟩
        have hfp : f.path ≠ p := fun hh => hnp (hh ▸ h1)
        simpa [List.any_cons, hfp] using hany
    · by_cases h2 : f.path ∈ qf
      · rw [show qfLoop processing (f :: rest) jobs qf dirty =
          qfLoop processing rest jobs qf dirty by simp [qfLoop, h1, h2]]
        apply ih
        rcases h with h | ⟨hnp, hany⟩
        · exact Or.inl h
        · by_cases hfp : f.path = p
          · exact Or.inl (hfp ▸ h2)
          · exact Or.inr ⟨hnp, by simpa [List.any_cons, hfp] using hany⟩
      · rw [show qfLoop processing (f :: rest) jobs qf dirty =
          qfLoop processing rest (jobs ++ [⟨f, f.path.splitOn "/"⟩])
            (qf ++ [f.path]) dirty by simp [qfLoop, h1, h2]]
        apply ih
        rcases h with h | ⟨hnp, hany⟩
        · exact Or.inl (List.mem_append_left _ h)
        · by_cases hfp : f.path = p
          · exact Or.inl (List.mem_append_right _ (by simp [hfp]))
          · exact Or.inr ⟨hnp, by simpa [List.any_cons, hfp] using hany⟩

/-- The loop leaves dirty-map entries at unprocessed paths untouched. -/
theorem qfLoop_dirty_get (processing : List String) (files : List TFile)
    (jobs : List ContentJob) (qf : List String)
    (dirty : List (String × TFile)) (p : String) (hp : p ∉ processing) :
    mapGet (qfLoop processing files jobs qf dirty).2.2 p = mapGet dirty p := by
  induction files generalizing jobs qf dirty with
  | nil => simp [qfLoop]
  | cons f rest ih =>
    by_cases h1 : f.path ∈ processing
    · have hfp : p ≠ f.path := fun h => hp (h ▸ h1)
      rw [show qfLoop processing (f :: rest) jobs qf dirty =
        qfLoop processing rest jobs qf (mapSet dirty f.path f) by
          simp [qfLoop, h1]]
      rw [ih jobs qf (mapSet dirty f.path f), mapGet_mapSet_ne dirty f hfp]
    · by_cases h2 : f.path ∈ qf
      · rw [show qfLoop processing (f :: rest) jobs qf dirty =
          qfLoop processing rest jobs qf dirty by simp [qfLoop, h1, h2]]
        exact ih jobs qf dirty
      · rw [show qfLoop processing (f :: rest) jobs qf dirty =
          qfLoop processing rest (jobs ++ [⟨f, f.path.splitOn "/"⟩])
            (qf ++ [f.path]) dirty by simp [qfLoop, h1, h2]]
        exact ih _ _ dirty

theorem queueFilesF_of_stopped {st : PState} (h : st.stopped = true)
    (files : List TFile) : queueFilesF st files = st := by
  unfold queueFilesF
  simp [h]

theorem queueFilesF_queue {st : PState} (h : st.stopped = false)
    (files : List TFile) :
    (queueFilesF st files).queue = st.queue ++
      (qfLoop st.processingFiles files [] st.queuedFiles
        st.dirtyFilesDuringProcessing).1 := by
  unfold queueFilesF
  rw [if_neg (by simp [h])]
  dsimp only
  split
  · rename_i hnil
    simp [hnil]
  · split
    · unfold startProcessingF
      rfl
    · rfl

theorem queueFilesF_queuedFiles {st : PState} (h : st.stopped = false)
    (files : List TFile) :
    (queueFilesF st files).queuedFiles =
      (qfLoop st.processingFiles files [] st.queuedFiles
        st.dirtyFilesDuringProcessing).2.1 := by
  unfold queueFilesF
  rw [if_neg (by simp [h])]
  dsimp only
  split
  · rfl
  · split
    · unfold startProcessingF
      rfl
    · rfl

theorem queueFilesF_dirty {st : PState} (h : st.stopped = false)
    (files : List TFile) :
    (queueFilesF st files).dirtyFilesDuringProcessing =
      (qfLoop st.processingFiles files [] st.queuedFiles
        st.dirtyFilesDuringProcessing).2.2 := by
  unfold queueFilesF
  rw [if_neg (by simp [h])]
  dsimp only
  split
  · rfl
  · split
    · unfold startProcessingF
      rfl
    · rfl

/-- `queueFiles` leaves every field other than the queue, the queued
set, the dirty map and the debounce timer unchanged. -/
theorem queueFilesF_fields (st : PState) (files : List TFile) :
    (queueFilesF st files).processingFiles = st.processingFiles ∧
    (queueFilesF st files).stopped = st.stopped ∧
    (queueFilesF st files).processingSession = st.processingSession ∧
    (queueFilesF st files).isProcessing = st.isProcessing ∧
    (queueFilesF st files).retryState = st.retryState ∧
    (queueFilesF st files).retryTimer = st.retryTimer ∧
    (queueFilesF st files).batches = st.batches ∧
    (queueFilesF st files).abortOwner = st.abortOwner ∧
    (queueFilesF st files).nextCtxId = st.nextCtxId ∧
    (queueFilesF st files).writeLog = st.writeLog ∧
    (queueFilesF st files).currentBatchSettings = st.currentBatchSettings := by
  cases hstop : st.stopped
  · unfold queueFilesF
    rw [if_neg (by simp [hstop])]
    dsimp only
    split
    · simp [hstop]
    · split
      · rename_i hcond
        unfold startProcessingF
        rcases hcond with ⟨-, -, hsome⟩
        rcases hs : st.currentBatchSettings with _ | v
        · rw [hs] at hsome
          simp at hsome
        · simp [hs, hstop]
      · simp [hstop]
  · simp [queueFilesF, hstop]


/-! ### Claim C4: exponential backoff delays -/

/-- **C4.** For every attempt count `a ≥ 1` that leads to a scheduled
retry, the computed backoff delay equals
`min(1000 × 2^(a−1), 30000)` ms, so the delays for consecutive failures
1..6 are 1000, 2000, 4000, 8000, 16000, 30000 ms — strictly increasing
until the 30000 ms cap, and constant at the cap from the 6th attempt
on. -/
theorem claim_C4_backoff_delays :
    (∀ a : Nat, retryDelay a = min (1000 * 2 ^ (a - 1)) 30000) ∧
    retryDelay 1 = 1000 ∧ retryDelay 2 = 2000 ∧ retryDelay 3 = 4000 ∧
    retryDelay 4 = 8000 ∧ retryDelay 5 = 16000 ∧ retryDelay 6 = 30000 ∧
    retryDelay 1 < retryDelay 2 ∧ retryDelay 2 < retryDelay 3 ∧
    retryDelay 3 < retryDelay 4 ∧ retryDelay 4 < retryDelay 5 ∧
    retryDelay 5 < retryDelay 6 ∧
    (∀ a : Nat, 6 ≤ a → retryDelay a = 30000) := by
  refine ⟨fun a => rfl, by decide, by decide, by decide, by decide, by decide,
    by decide, by decide, by decide, by decide, by decide, by decide, ?_⟩
  intro a ha
  unfold retryDelay RETRY_INITIAL_DELAY_MS RETRY_MAX_DELAY_MS
  apply Nat.min_eq_right
  calc (30000 : Nat) ≤ 1000 * 2 ^ 5 := by norm_num
    _ ≤ 1000 * 2 ^ (a - 1) :=
      Nat.mul_le_mul_left 1000 (Nat.pow_le_pow_right (by norm_num) (by omega))

/-- Witness for C4: the capped tail applies at the concrete attempt 7. -/
theorem claim_C4_backoff_delays_witness :
    (6 : Nat) ≤ 7 ∧ retryDelay 7 = 30000 := by
  obtain ⟨-, -, -, -, -, -, -, -, -, -, -, -, hcap⟩ := claim_C4_backoff_delays
  exact ⟨by decide, hcap 7 (by decide)⟩

/-! ### Claim C5: duplicate enqueue is deduplicated -/

/-- **C5.** For a file neither queued nor mid-processing on an unstopped
provider, calling `queueFiles([fileA])` twice in succession before any
batch starts yields exactly one job for the file in the pending queue;
the second call appends nothing. -/
theorem claim_C5_duplicate_enqueue_dedup (st : PState) (f : TFile)
    (hs : st.stopped = false) (hq : f.path ∉ st.queuedFiles)
    (hp : f.path ∉ st.processingFiles)
    (hc : st.queue.countP (fun j => j.file.path = f.path) = 0) :
    (queueFilesF (queueFilesF st [f]) [f]).queue = (queueFilesF st [f]).queue ∧
    (queueFilesF (queueFilesF st [f]) [f]).queue.countP
        (fun j => j.file.path = f.path) = 1 := by
  have hf := queueFilesF_fields st [f]
  have hs1 : (queueFilesF st [f]).stopped = false := hf.2.1.trans hs
  have h1q : (queueFilesF st [f]).queue =
      st.queue ++ [{ file := f, pathSegments := f.path.splitOn "/" }] := by
    rw [queueFilesF_queue hs]
    simp [qfLoop, hp, hq]
  have h1qf : (queueFilesF st [f]).queuedFiles = st.queuedFiles ++ [f.path] := by
    rw [queueFilesF_queuedFiles hs]
    simp [qfLoop, hp, hq]
  have hmem : f.path ∈ (queueFilesF st [f]).queuedFiles := by
    rw [h1qf]
    simp
  have hp1 : f.path ∉ (queueFilesF st [f]).processingFiles := by
    rw [hf.1]
    exact hp
  have h2q : (queueFilesF (queueFilesF st [f]) [f]).queue =
      (queueFilesF st [f]).queue := by
    rw [queueFilesF_queue hs1]
    simp [qfLoop, hp1, hmem]
  refine ⟨h2q, ?_⟩
  rw [h2q, h1q]
  simp [List.countP_append, hc]

/-- Witness for C5 at the initial state and `fileA`. -/
theorem claim_C5_duplicate_enqueue_dedup_witness :
    initState.stopped = false ∧ fileA.path ∉ initState.queuedFiles ∧
    fileA.path ∉ initState.processingFiles ∧
    initState.queue.countP (fun j => j.file.path = fileA.path) = 0 ∧
    ((queueFilesF (queueFilesF initState [fileA]) [fileA]).queue =
        (queueFilesF initState [fileA]).queue ∧
      (queueFilesF (queueFilesF initState [fileA]) [fileA]).queue.countP
          (fun j => j.file.path = fileA.path) = 1) :=
  ⟨rfl, by decide, by decide, rfl,
    claim_C5_duplicate_enqueue_dedup initState fileA rfl (by decide)
      (by decide) rfl⟩

/-! ### Claim C7: stopProcessing is not literally idempotent -/

/-- **C7 counterexample.**  `stopProcessing()` is not idempotent on the
provider state: a second call bumps the monotonic session counter again,
so two calls do not leave the provider in the state one call leaves it
in (2 vs 1 here). -/
theorem claim_C7_counterexample_stop_not_idempotent :
    stopProcessingF (stopProcessingF initState) ≠ stopProcessingF initState := by
  intro h
  have hsess := congrArg PState.processingSession h
  simp [stopProcessingF, clearRetryStateF, clearRetryTimerF, initState] at hsess

/-- **C7 (amended).**  `stopProcessing()` is idempotent in every field
except the session counter, which it increments on each call: a second
call yields exactly the state of the first with `processingSession` one
higher.  Each call sets the stopped flag, drops the abort controller
(aborting the batch it pointed at), clears the debounce timer, clears
all retry state and its timer, resets `isProcessing`, and empties the
queue, the queued-files set, the processing-files set and the
dirty-during-processing map. -/
theorem claim_C7_stop_idempotent_except_session (st : PState) :
    stopProcessingF (stopProcessingF st) =
      { stopProcessingF st with
          processingSession := (stopProcessingF st).processingSession + 1 } ∧
    (stopProcessingF st).stopped = true ∧
    (stopProcessingF st).abortOwner = none ∧
    (stopProcessingF st).queueDebounceTimer = false ∧
    (stopProcessingF st).retryTimer = none ∧
    (stopProcessingF st).retryState = [] ∧
    (stopProcessingF st).isProcessing = false ∧
    (stopProcessingF st).queue = [] ∧
    (stopProcessingF st).processingFiles = [] ∧
    (stopProcessingF st).queuedFiles = [] ∧
    (stopProcessingF st).dirtyFilesDuringProcessing = [] ∧
    (stopProcessingF st).processingSession = st.processingSession + 1 ∧
    (∀ b ∈ (stopProcessingF st).batches,
      st.abortOwner = some b.id → b.signalAborted = true) := by
  cases ho : st.abortOwner with
  | none =>
    have hs1 : stopProcessingF st =
        { queue := [], isProcessing := false, queueDebounceTimer := false,
          currentBatchSettings := st.currentBatchSettings,
          processingFiles := [], queuedFiles := [],
          dirtyFilesDuringProcessing := [], stopped := true,
          processingSession := st.processingSession + 1, retryTimer := none,
          retryState := [], batches := st.batches, abortOwner := none,
          nextCtxId := st.nextCtxId, writeLog := st.writeLog } := by
      simp [stopProcessingF, clearRetryStateF, clearRetryTimerF, ho]
    rw [hs1]
    refine ⟨?_, rfl, rfl, rfl, rfl, rfl, rfl, rfl, rfl, rfl, rfl, rfl, ?_⟩
    · simp [stopProcessingF, clearRetryStateF, clearRetryTimerF]
    · intro b _ hb
      exact absurd hb (by simp)
  | some i =>
    have hs1 : stopProcessingF st =
        { queue := [], isProcessing := false, queueDebounceTimer := false,
          currentBatchSettings := st.currentBatchSettings,
          processingFiles := [], queuedFiles := [],
          dirtyFilesDuringProcessing := [], stopped := true,
          processingSession := st.processingSession + 1, retryTimer := none,
          retryState := [],
          batches := st.batches.map (fun (c : BatchCtx) =>
            if c.id = i then { c with signalAborted := true } else c),
          abortOwner := none,
          nextCtxId := st.nextCtxId, writeLog := st.writeLog } := by
      simp [stopProcessingF, clearRetryStateF, clearRetryTimerF, ho]
    rw [hs1]
    refine ⟨?_, rfl, rfl, rfl, rfl, rfl, rfl, rfl, rfl, rfl, rfl, rfl, ?_⟩
    · simp [stopProcessingF, clearRetryStateF, clearRetryTimerF]
    · intro b hb hown
      have hbid : b.id = i := by
        injection hown with h
        exact h.symm
      obtain ⟨c, hc, hceq⟩ := List.mem_map.mp hb
      by_cases hci : c.id = i
      · rw [if_pos hci] at hceq
        rw [← hceq]
      · rw [if_neg hci] at hceq
        rw [← hceq] at hbid
        exact absurd hbid hci


/-! ### Claim C6: enqueue during processing defers and replays once -/

theorem mapGet_mem_values {α : Type} {m : List (String × α)} {p : String}
    {v : α} (h : mapGet m p = some v) : v ∈ m.map (fun e => e.2) := by
  induction m with
  | nil => simp [mapGet] at h
  | cons e m ih =>
    obtain ⟨k, w⟩ := e
    by_cases hk : k = p
    · rw [show mapGet ((k, w) :: m) p = some w by simp [mapGet, hk]] at h
      injection h with h
      simp [h]
    · rw [show mapGet ((k, w) :: m) p = mapGet m p by simp [mapGet, hk]] at h
      simp [ih h]

/-- The processing marks of a batch are all cleared by the fold of
`Set.delete` calls in the `finally` block. -/
theorem foldl_setDel_activeJobs (ajs : List ActiveJob) (s : List String)
    (p : String) (hp : p ∈ ajs.map (fun aj => aj.job.file.path)) :
    p ∉ ajs.foldl (fun acc aj => setDel acc aj.job.file.path) s := by
  have hfold : ajs.foldl (fun acc aj => setDel acc aj.job.file.path) s =
      (ajs.map (fun aj => aj.job.file.path)).foldl setDel s := by
    rw [List.foldl_map]
  rw [hfold, foldl_setDel_eq_filter]
  intro hmem
  rw [List.mem_filter] at hmem
  exact absurd hp (by simpa using hmem.2)

/-- Draining a nonempty dirty map through `queueFiles`: on an unstopped
state whose dirty map is empty again and where the target path is
neither queued nor processing, replaying files containing the path
enqueues it exactly once. -/
theorem queueFiles_drain_spec (stc : PState) (dirtyF : List TFile)
    (p : String) (hs : stc.stopped = false) (hpf : p ∉ stc.processingFiles)
    (hqf : p ∉ stc.queuedFiles) (hd : stc.dirtyFilesDuringProcessing = [])
    (hcount : stc.queue.countP (fun j => j.file.path = p) = 0)
    (hany : dirtyF.any (fun g => g.path = p) = true) :
    (queueFilesF stc dirtyF).queue.countP (fun j => j.file.path = p) = 1 ∧
    mapGet (queueFilesF stc dirtyF).dirtyFilesDuringProcessing p = none ∧
    p ∈ (queueFilesF stc dirtyF).queuedFiles := by
  refine ⟨?_, ?_, ?_⟩
  · rw [queueFilesF_queue hs, List.countP_append, hcount,
      qfLoop_count stc.processingFiles dirtyF [] stc.queuedFiles
        stc.dirtyFilesDuringProcessing p hpf]
    rw [if_neg hqf, if_pos hany]
    simp
  · rw [queueFilesF_dirty hs,
      qfLoop_dirty_get stc.processingFiles dirtyF [] stc.queuedFiles
        stc.dirtyFilesDuringProcessing p hpf, hd]
    rfl
  · rw [queueFilesF_queuedFiles hs]
    exact qfLoop_qf_mem stc.processingFiles dirtyF [] stc.queuedFiles
      stc.dirtyFilesDuringProcessing p (Or.inr ⟨hpf, hany⟩)

/-- **C6.**  A file enqueued while its path is mid-processing is not
appended to the queue but recorded in the dirty-during-processing map
(later enqueues for the same path overwrite the entry); when the batch
completes with the session still current and unaborted, the dirty map is
drained and the file is re-enqueued exactly once. -/
theorem claim_C6_dirty_defer_and_replay :
    (∀ (st : PState) (f : TFile), st.stopped = false →
      f.path ∈ st.processingFiles →
      (queueFilesF st [f]).queue = st.queue ∧
      mapGet (queueFilesF st [f]).dirtyFilesDuringProcessing f.path = some f) ∧
    (∀ (st : PState) (f g : TFile), st.stopped = false →
      f.path ∈ st.processingFiles → g.path = f.path →
      (queueFilesF (queueFilesF st [f]) [g]).queue = st.queue ∧
      mapGet (queueFilesF (queueFilesF st [f]) [g]).dirtyFilesDuringProcessing
        f.path = some g) ∧
    (∀ (st : PState) (b : BatchCtx) (p : String) (f : TFile),
      st.batches.find? (fun c => c.id = b.id) = some b →
      b.phase = BatchPhase.finalizing →
      b.session = st.processingSession →
      st.stopped = false →
      b.signalAborted = false →
      mapGet st.dirtyFilesDuringProcessing p = some f →
      f.path = p →
      p ∈ b.activeJobs.map (fun aj => aj.job.file.path) →
      p ∉ st.queuedFiles →
      st.queue.countP (fun j => j.file.path = p) = 0 →
      (finallyStepF st b.id).queue.countP (fun j => j.file.path = p) = 1 ∧
      mapGet (finallyStepF st b.id).dirtyFilesDuringProcessing p = none ∧
      p ∈ (finallyStepF st b.id).queuedFiles) := by
  refine ⟨?_, ?_, ?_⟩
  · intro st f hs hp
    constructor
    · rw [queueFilesF_queue hs]
      simp [qfLoop, hp]
    · rw [queueFilesF_dirty hs]
      simp only [qfLoop, if_pos hp]
      exact mapGet_mapSet_self _ _ _
  · intro st f g hs hp hgf
    have hf := queueFilesF_fields st [f]
    have hs1 : (queueFilesF st [f]).stopped = false := hf.2.1.trans hs
    have hp1 : f.path ∈ (queueFilesF st [f]).processingFiles := by
      rw [hf.1]
      exact hp
    have h1 : (queueFilesF st [f]).queue = st.queue := by
      rw [queueFilesF_queue hs]
      simp [qfLoop, hp]
    constructor
    · rw [queueFilesF_queue hs1]
      simp [qfLoop, hgf, hp1, h1]
    · rw [queueFilesF_dirty hs1]
      simp only [qfLoop, hgf, if_pos hp1]
      exact mapGet_mapSet_self _ _ _
  · intro st b p f hfind hphase hsess hs hab hdget hfp hact hqf hcount
    have hp3 : st.dirtyFilesDuringProcessing.map (fun e => e.2) ≠ [] := by
      intro hnil
      have := mapGet_mem_values hdget
      rw [hnil] at this
      simp at this
    unfold finallyStepF
    rw [hfind]
    dsimp only
    rw [if_neg (by simp [hphase])]
    unfold finallyCore
    dsimp only
    rw [if_pos hsess.symm,
      if_pos (show st.processingSession = b.session ∧ ¬st.stopped = true ∧
        ¬b.signalAborted = true from ⟨hsess.symm, by simp [hs], by simp [hab]⟩)]
    dsimp only
    rw [if_pos hp3]
    refine queueFiles_drain_spec _ _ p ?_ ?_ ?_ ?_ ?_ ?_
    · exact hs
    · exact foldl_setDel_activeJobs b.activeJobs st.processingFiles p hact
    · exact hqf
    · rfl
    · exact hcount
    · rw [List.any_eq_true]
      exact ⟨f, mapGet_mem_values hdget, by simp [hfp]⟩


/-! ### Claim C3: retry exhaustion drops the path -/

theorem mapGet_filterMap_none {α β : Type} (m : List (String × α))
    (F : String × α → Option (String × β)) (p : String)
    (hF : ∀ e val, F e = some val → val.1 = e.1)
    (h : mapGet m p = none) : mapGet (m.filterMap F) p = none := by
  rw [mapGet_eq_none] at h ⊢
  intro hmem
  apply h
  unfold mapKeys at hmem ⊢
  rw [List.mem_map] at hmem
  obtain ⟨val, hval, hvp⟩ := hmem
  rw [List.mem_filterMap] at hval
  obtain ⟨e, he, hFe⟩ := hval
  rw [List.mem_map]
  exact ⟨e, he, by rw [← hvp, hF e val hFe]⟩

/-- `queueFiles` with files none of which carry the path `p` leaves the
number of queued jobs for `p` unchanged. -/
theorem queueFilesF_count_notmem (st2 : PState) (files : List TFile)
    (p : String) (hs : st2.stopped = false)
    (hfiles : ∀ f ∈ files, ¬f.path = p) :
    (queueFilesF st2 files).queue.countP (fun j => j.file.path = p) =
      st2.queue.countP (fun j => j.file.path = p) := by
  rw [queueFilesF_queue hs, List.countP_append]
  obtain ⟨delta, e1, -, e3, -, -⟩ := qfLoop_delta st2.processingFiles files []
    st2.queuedFiles st2.dirtyFilesDuringProcessing
  rw [e1]
  simp only [List.nil_append]
  have hz : delta.countP (fun j => j.file.path = p) = 0 := by
    rw [List.countP_eq_zero]
    intro j hj
    obtain ⟨-, f, hfmem, hfpath⟩ := e3 j hj
    simp only [decide_eq_true_eq]
    intro hjp
    exact hfiles f hfmem (by rw [hfpath, hjp])
  rw [hz]
  simp

/-- **C3.**  When a path's attempt count would exceed the fixed maximum
of 5, `scheduleRetry` removes its retry entry instead of scheduling a
6th retry; no retry entry ever carries more than 5 attempts; and
`flushRetries` never re-enqueues or resurrects a path that has no retry
entry — after the drop the path is only processed again via a new
external `queueFiles` call. -/
theorem claim_C3_retry_exhaustion_drops_path :
    (∀ (st : PState) (f : TFile) (now : Nat) (e : RetryEntry),
      st.stopped = false →
      mapGet st.retryState f.path = some e →
      e.attempts = RETRY_MAX_ATTEMPTS →
      mapGet (scheduleRetryF st f st.processingSession now).retryState f.path
        = none) ∧
    (∀ (st : PState) (f : TFile) (session now : Nat),
      (∀ p e, mapGet st.retryState p = some e →
        e.attempts ≤ RETRY_MAX_ATTEMPTS) →
      ∀ p e, mapGet (scheduleRetryF st f session now).retryState p = some e →
        e.attempts ≤ RETRY_MAX_ATTEMPTS) ∧
    (∀ (st : PState) (session now : Nat) (vault : String → Option TFile)
        (p : String),
      (∀ q g, vault q = some g → g.path = q) →
      mapGet st.retryState p = none →
      mapGet (flushRetriesF st session now vault).retryState p = none ∧
      (flushRetriesF st session now vault).queue.countP
          (fun j => j.file.path = p) =
        st.queue.countP (fun j => j.file.path = p)) := by
  refine ⟨?_, ?_, ?_⟩
  · intro st f now e hs hget hmax
    unfold scheduleRetryF
    rw [if_neg (by simp [hs])]
    dsimp only
    rw [hget]
    dsimp only
    rw [hmax, if_pos (by decide)]
    rw [scheduleRetryTimerF_retryState]
    exact mapGet_mapDel_self _ _
  · intro st f session now hbound p e hget2
    by_cases hguard : st.stopped = true ∨ st.processingSession ≠ session
    · rw [scheduleRetryF, if_pos hguard] at hget2
      exact hbound p e hget2
    · rw [scheduleRetryF, if_neg hguard] at hget2
      dsimp only at hget2
      cases hex : mapGet st.retryState f.path with
      | some e0 =>
        rw [hex] at hget2
        dsimp only at hget2
        by_cases hgt : e0.attempts + 1 > RETRY_MAX_ATTEMPTS
        · rw [if_pos hgt, scheduleRetryTimerF_retryState] at hget2
          dsimp only at hget2
          by_cases hpf : p = f.path
          · rw [hpf, mapGet_mapDel_self] at hget2
            exact absurd hget2 (by simp)
          · rw [mapGet_mapDel_ne _ hpf] at hget2
            exact hbound p e hget2
        · rw [if_neg hgt, scheduleRetryTimerF_retryState] at hget2
          dsimp only at hget2
          by_cases hpf : p = f.path
          · rw [hpf, mapGet_mapSet_self] at hget2
            injection hget2 with h
            rw [← h]
            exact Nat.not_lt.mp hgt
          · rw [mapGet_mapSet_ne _ _ hpf] at hget2
            exact hbound p e hget2
      | none =>
        rw [hex] at hget2
        dsimp only at hget2
        rw [if_neg (by decide), scheduleRetryTimerF_retryState] at hget2
        dsimp only at hget2
        by_cases hpf : p = f.path
        · rw [hpf, mapGet_mapSet_self] at hget2
          injection hget2 with h
          rw [← h]
          exact (by decide : (1 : Nat) ≤ RETRY_MAX_ATTEMPTS)
        · rw [mapGet_mapSet_ne _ _ hpf] at hget2
          exact hbound p e hget2
  · intro st session now vault p hvault hnone
    unfold flushRetriesF
    by_cases hguard : st.stopped = true ∨ st.processingSession ≠ session ∨
        st.retryState = []
    · rw [if_pos hguard]
      exact ⟨rfl, rfl⟩
    · rw [if_neg hguard]
      dsimp only
      have hstop : st.stopped = false := by
        cases h : st.stopped
        · rfl
        · exact absurd (Or.inl h) hguard
      have hrsnone :
          mapGet (st.retryState.filterMap (flushKeepEntry now vault)) p
            = none := by
        apply mapGet_filterMap_none _ _ _ _ hnone
        intro e val hv
        unfold flushKeepEntry at hv
        by_cases hlt : now < e.2.nextRetryAt
        · rw [if_pos hlt] at hv
          injection hv with hv
          rw [← hv]
        · rw [if_neg hlt] at hv
          cases hvp : vault e.1 with
          | some g =>
            rw [hvp] at hv
            dsimp only at hv
            injection hv with hv
            rw [← hv]
          | none =>
            rw [hvp] at hv
            simp at hv
      have hpnotkeys : p ∉ mapKeys st.retryState := mapGet_eq_none.mp hnone
      have hfp : ∀ f ∈ st.retryState.filterMap (flushFileEntry now vault),
          ¬f.path = p := by
        intro f hf hfpeq
        rw [List.mem_filterMap] at hf
        obtain ⟨e, he, hFe⟩ := hf
        unfold flushFileEntry at hFe
        by_cases hlt : now < e.2.nextRetryAt
        · rw [if_pos hlt] at hFe
          exact absurd hFe (by simp)
        · rw [if_neg hlt] at hFe
          apply hpnotkeys
          rw [← hfpeq, hvault e.1 f hFe]
          exact List.mem_map.mpr ⟨e, he, rfl⟩
      constructor
      · rw [scheduleRetryTimerF_retryState]
        split
        · rw [(queueFilesF_fields _ _).2.2.2.2.1]
          exact hrsnone
        · exact hrsnone
      · rw [(retryOnly_scheduleRetryTimerF _ session).1]
        split
        · exact queueFilesF_count_notmem _ _ p hstop hfp
        · rfl


/-! ### Claim C9: the retry-timer flush -/

theorem mapGet_some_mem {α : Type} {m : List (String × α)} {p : String}
    {e : α} (h : mapGet m p = some e) : (p, e) ∈ m := by
  induction m with
  | nil => simp [mapGet] at h
  | cons ent m ih =>
    obtain ⟨k, v⟩ := ent
    by_cases hk : k = p
    · subst hk
      rw [show mapGet ((k, v) :: m) k = some v by simp [mapGet]] at h
      injection h with h
      simp [h]
    · rw [show mapGet ((k, v) :: m) p = mapGet m p by simp [mapGet, hk]] at h
      exact List.mem_cons_of_mem _ (ih h)

/-- On a duplicate-free map, a key-preserving `filterMap` transforms the
looked-up entry pointwise. -/
theorem mapGet_filterMap_nodup {α β : Type} (m : List (String × α))
    (F : String × α → Option (String × β)) (p : String) (e : α)
    (hF : ∀ ent val, F ent = some val → val.1 = ent.1)
    (hnd : (mapKeys m).Nodup) (h : mapGet m p = some e) :
    mapGet (m.filterMap F) p = Option.map (fun v => v.2) (F (p, e)) := by
  induction m with
  | nil => simp [mapGet] at h
  | cons ent m ih =>
    obtain ⟨k, v⟩ := ent
    have hnd' : (mapKeys m).Nodup := by
      rw [show mapKeys ((k, v) :: m) = k :: mapKeys m from rfl] at hnd
      exact hnd.of_cons
    by_cases hk : k = p
    · subst hk
      rw [show mapGet ((k, v) :: m) k = some v by simp [mapGet]] at h
      injection h with h
      subst h
      have hknot : k ∉ mapKeys m := by
        rw [show mapKeys ((k, v) :: m) = k :: mapKeys m from rfl] at hnd
        exact (List.nodup_cons.mp hnd).1
      cases hFe : F (k, v) with
      | some val =>
        rw [List.filterMap_cons_some hFe]
        have hval := hF _ _ hFe
        obtain ⟨vk, vv⟩ := val
        simp only at hval
        subst hval
        simp [mapGet, hFe]
      | none =>
        rw [List.filterMap_cons_none hFe,
          mapGet_filterMap_none m F k hF (mapGet_eq_none.mpr hknot)]
        simp [hFe]
    · rw [show mapGet ((k, v) :: m) p = mapGet m p by simp [mapGet, hk]] at h
      cases hFe : F (k, v) with
      | some val =>
        rw [List.filterMap_cons_some hFe]
        have hval := hF _ _ hFe
        rw [show mapGet (val :: m.filterMap F) p = mapGet (m.filterMap F) p by
          obtain ⟨vk, vv⟩ := val
          simp only at hval
          subst hval
          simp [mapGet, hk]]
        exact ih hnd' h
      | none =>
        rw [List.filterMap_cons_none hFe]
        exact ih hnd' h

theorem flushKeepEntry_key (now : Nat) (vault : String → Option TFile)
    (e : String × RetryEntry) (val : String × RetryEntry)
    (hv : flushKeepEntry now vault e = some val) : val.1 = e.1 := by
  unfold flushKeepEntry at hv
  by_cases hlt : now < e.2.nextRetryAt
  · rw [if_pos hlt] at hv
    injection hv with hv
    rw [← hv]
  · rw [if_neg hlt] at hv
    cases hvp : vault e.1 with
    | some g =>
      rw [hvp] at hv
      dsimp only at hv
      injection hv with hv
      rw [← hv]
    | none =>
      rw [hvp] at hv
      simp at hv

/-- `queueFiles` over a fresh unprocessed path occurring among the files
adds exactly one job for it. -/
theorem queueFilesF_count_new (st2 : PState) (files : List TFile)
    (p : String) (hs : st2.stopped = false) (hqf : p ∉ st2.queuedFiles)
    (hpf : p ∉ st2.processingFiles)
    (hany : files.any (fun f => f.path = p) = true) :
    (queueFilesF st2 files).queue.countP (fun j => j.file.path = p) =
      st2.queue.countP (fun j => j.file.path = p) + 1 := by
  rw [queueFilesF_queue hs, List.countP_append,
    qfLoop_count st2.processingFiles files [] st2.queuedFiles
      st2.dirtyFilesDuringProcessing p hpf, if_neg hqf, if_pos hany]
  simp

/-- The arm/clear alternatives of `scheduleRetryTimer`. -/
theorem scheduleRetryTimerF_timer_spec (st2 : PState) (session : Nat) :
    (scheduleRetryTimerF st2 session).retryTimer = none ∨
    ((scheduleRetryTimerF st2 session).retryTimer =
        some (session, minNextRetryAt st2.retryState) ∧
      minNextRetryAt st2.retryState ≠ RETRY_UNSCHEDULED_AT) := by
  unfold scheduleRetryTimerF clearRetryTimerF
  dsimp only
  split
  · exact Or.inl rfl
  · split
    · exact Or.inl rfl
    · rename_i hne
      exact Or.inr ⟨rfl, hne⟩

/-- **C9.**  When the retry timer fires with the session current and the
provider not stopped, `flushRetries` examines exactly the elapsed
entries: an entry not yet due is kept unchanged; an elapsed entry whose
path still resolves keeps its attempt count with `nextRetryAt` moved to
the unscheduled sentinel, and its file is re-enqueued through
`queueFiles`; an elapsed entry whose path no longer resolves is deleted;
finally the timer is rearmed from the remaining entries (or cleared when
nothing is scheduled). -/
theorem claim_C9_flush_retries_behavior (st : PState) (now : Nat)
    (vault : String → Option TFile) (hs : st.stopped = false)
    (hne : st.retryState ≠ []) (hnd : (mapKeys st.retryState).Nodup) :
    (flushRetriesF st st.processingSession now vault).retryState =
      st.retryState.filterMap (flushKeepEntry now vault) ∧
    (∀ p e, mapGet st.retryState p = some e → now < e.nextRetryAt →
      mapGet (flushRetriesF st st.processingSession now vault).retryState p =
        some e) ∧
    (∀ p e, mapGet st.retryState p = some e → e.nextRetryAt ≤ now →
      (∀ f, vault p = some f →
        mapGet (flushRetriesF st st.processingSession now vault).retryState p =
          some ⟨e.attempts, RETRY_UNSCHEDULED_AT⟩) ∧
      (vault p = none →
        mapGet (flushRetriesF st st.processingSession now vault).retryState p =
          none)) ∧
    (∀ p e f, mapGet st.retryState p = some e → e.nextRetryAt ≤ now →
      vault p = some f → f.path = p → p ∉ st.queuedFiles →
      p ∉ st.processingFiles →
      (flushRetriesF st st.processingSession now vault).queue.countP
          (fun j => j.file.path = p) =
        st.queue.countP (fun j => j.file.path = p) + 1) ∧
    ((flushRetriesF st st.processingSession now vault).retryTimer = none ∨
      ((flushRetriesF st st.processingSession now vault).retryTimer =
          some (st.processingSession, minNextRetryAt
            ((flushRetriesF st st.processingSession now vault).retryState)) ∧
        minNextRetryAt
            ((flushRetriesF st st.processingSession now vault).retryState) ≠
          RETRY_UNSCHEDULED_AT)) := by
  unfold flushRetriesF
  rw [if_neg (by simp [hs, hne])]
  dsimp only
  have hrs : ∀ p, mapGet (if st.retryState.filterMap (flushFileEntry now vault)
        ≠ [] then
        queueFilesF { st with retryState :=
          st.retryState.filterMap (flushKeepEntry now vault) }
          (st.retryState.filterMap (flushFileEntry now vault))
      else { st with retryState :=
        st.retryState.filterMap (flushKeepEntry now vault) }).retryState p =
      mapGet (st.retryState.filterMap (flushKeepEntry now vault)) p := by
    intro p
    split
    · rw [(queueFilesF_fields _ _).2.2.2.2.1]
    · rfl
  refine ⟨?_, ?_, ?_, ?_, ?_⟩
  · rw [scheduleRetryTimerF_retryState]
    split
    · rw [(queueFilesF_fields _ _).2.2.2.2.1]
    · rfl
  · intro p e hget hlt
    rw [scheduleRetryTimerF_retryState, hrs p,
      mapGet_filterMap_nodup st.retryState _ p e
        (flushKeepEntry_key now vault) hnd hget]
    unfold flushKeepEntry
    rw [if_pos hlt]
    rfl
  · intro p e hget hle
    constructor
    · intro f hvp
      rw [scheduleRetryTimerF_retryState, hrs p,
        mapGet_filterMap_nodup st.retryState _ p e
          (flushKeepEntry_key now vault) hnd hget]
      unfold flushKeepEntry
      rw [if_neg (by dsimp only; omega), hvp]
      rfl
    · intro hvp
      rw [scheduleRetryTimerF_retryState, hrs p,
        mapGet_filterMap_nodup st.retryState _ p e
          (flushKeepEntry_key now vault) hnd hget]
      unfold flushKeepEntry
      rw [if_neg (by dsimp only; omega), hvp]
      rfl
  · intro p e f hget hle hvp hfp hqf hpf
    rw [(retryOnly_scheduleRetryTimerF _ st.processingSession).1]
    have hfmem : f ∈ st.retryState.filterMap (flushFileEntry now vault) := by
      rw [List.mem_filterMap]
      refine ⟨(p, e), mapGet_some_mem hget, ?_⟩
      unfold flushFileEntry
      rw [if_neg (by dsimp only; omega)]
      exact hvp
    split
    · refine queueFilesF_count_new _ _ p hs hqf hpf ?_
      rw [List.any_eq_true]
      exact ⟨f, hfmem, by simp [hfp]⟩
    · rename_i hfe
      rw [not_not] at hfe
      rw [hfe] at hfmem
      simp at hfmem
  · rw [scheduleRetryTimerF_retryState]
    exact scheduleRetryTimerF_timer_spec _ _


/-! ### Claim C8: a throwing job equals a not-processed job -/

theorem retryOnly_batches {a b : PState} (h : RetryOnly a b) :
    b.batches = a.batches := h.2.2.2.2.2.2.2.2.2.1

theorem retryOnly_retryGet {a b : PState} (h : RetryOnly a b) :
    b.queue = a.queue := h.1

theorem find?_map_update (l : List BatchCtx) (id : Nat)
    (f : BatchCtx → BatchCtx) (hf : ∀ b, (f b).id = b.id) :
    (l.map (fun b => if b.id = id then f b else b)).find?
        (fun c => c.id = id) =
      (l.find? (fun c => c.id = id)).map f := by
  induction l with
  | nil => rfl
  | cons b l ih =>
    by_cases hb : b.id = id
    · rw [List.map_cons, if_pos hb,
        List.find?_cons_of_pos _ (by simp [hf, hb]),
        List.find?_cons_of_pos _ (by simp [hb])]
      rfl
    · rw [List.map_cons, if_neg hb,
        List.find?_cons_of_neg _ (by simp [hb]),
        List.find?_cons_of_neg _ (by simp [hb])]
      exact ih

/-- Two outcome assignments whose per-job `try`/`catch` conversions agree
drive one chunk completion to the same state. -/
theorem chunkCompleteF_congr (st : PState) (id : Nat)
    (o1 o2 : String → Outcome) (now : Nat)
    (h : ∀ q, outcomeResult (o1 q) = outcomeResult (o2 q)) :
    chunkCompleteF st id o1 now = chunkCompleteF st id o2 now := by
  unfold chunkCompleteF
  cases hfind : st.batches.find? (fun c => c.id = id) with
  | none => rfl
  | some b =>
    dsimp only
    split
    · rfl
    · have hmap : b.chunk.map
          (fun aj => (aj, outcomeResult (o1 aj.job.file.path))) =
          b.chunk.map (fun aj => (aj, outcomeResult (o2 aj.job.file.path))) :=
        List.map_congr_left (fun aj _ => by rw [h])
      rw [hmap]

/-- **C8.**  A job whose `processFile` throws is caught per job and
converted into `{ update: null, processed: false }` — the chunk behaves
exactly as if the provider had returned not-processed: the surrounding
state transition is identical, the whole chunk is still consumed with
the loop continuing (phase returns to the top of the chunk loop with the
other jobs' staged updates intact), and the throwing job's path is
registered for retry when the session is still current. -/
theorem claim_C8_exception_is_not_processed :
    (∀ (st : PState) (id : Nat) (o : String → Outcome) (now : Nat) (p : String),
      chunkCompleteF st id (fun q => if q = p then Outcome.thrown else o q)
          now =
        chunkCompleteF st id
          (fun q => if q = p then Outcome.success ⟨none, false⟩ else o q)
          now) ∧
    (∀ (st : PState) (b : BatchCtx) (o : String → Outcome) (now : Nat),
      st.batches.find? (fun c => c.id = b.id) = some b →
      b.phase = BatchPhase.inflight →
      ∃ ups mts, (chunkCompleteF st b.id o now).batches.find?
          (fun c => c.id = b.id) =
        some { b with
          chunk := [], phase := BatchPhase.chunking,
          updates := b.updates ++ ups,
          processedMtimeUpdates := b.processedMtimeUpdates ++ mts }) ∧
    (∀ (st : PState) (b : BatchCtx) (aj : ActiveJob) (o : String → Outcome)
        (now : Nat),
      st.batches.find? (fun c => c.id = b.id) = some b →
      b.phase = BatchPhase.inflight →
      b.chunk = [aj] →
      b.session = st.processingSession →
      st.stopped = false →
      b.signalAborted = false →
      mapGet st.retryState aj.job.file.path = none →
      o aj.job.file.path = Outcome.thrown →
      mapGet (chunkCompleteF st b.id o now).retryState aj.job.file.path =
        some ⟨1, now + retryDelay 1⟩) := by
  refine ⟨?_, ?_, ?_⟩
  · intro st id o now p
    apply chunkCompleteF_congr
    intro q
    by_cases hq : q = p
    · rw [if_pos hq, if_pos hq]
      rfl
    · rw [if_neg hq, if_neg hq]
  · intro st b o now hfind hphase
    unfold chunkCompleteF
    rw [hfind]
    dsimp only
    rw [if_neg (by simp [hphase])]
    unfold updateCtx
    dsimp only
    set w := List.foldl (handleResult b.session b.signalAborted now)
      (st, [], [])
      (List.map (fun aj => (aj, outcomeResult (o aj.job.file.path))) b.chunk)
      with hw
    have hwb : w.1.batches = st.batches := by
      rw [hw]
      exact retryOnly_batches (retryOnly_foldl_handleResult b.session
        b.signalAborted now _ (st, [], []))
    rw [hwb]
    rw [find?_map_update st.batches b.id
      (fun c => { c with
        updates := c.updates ++ w.2.1,
        processedMtimeUpdates := c.processedMtimeUpdates ++ w.2.2,
        chunk := [], phase := BatchPhase.chunking })
      (fun c => rfl), hfind]
    exact ⟨_, _, rfl⟩
  · intro st b aj o now hfind hphase hchunk hsess hs hab hnone ho
    unfold chunkCompleteF
    rw [hfind]
    dsimp only
    rw [if_neg (by simp [hphase]), hchunk]
    simp only [List.map_cons, List.map_nil, List.foldl_cons, List.foldl_nil]
    rw [ho]
    simp only [outcomeResult]
    unfold updateCtx
    dsimp only
    unfold handleResult
    dsimp only
    rw [if_pos (show st.processingSession = b.session ∧ ¬st.stopped = true ∧
        ¬b.signalAborted = true from ⟨hsess.symm, by simp [hs], by simp [hab]⟩)]
    rw [if_pos (show ¬(false = true) by simp)]
    unfold scheduleRetryF
    rw [if_neg (by simp [hs, hsess])]
    dsimp only
    rw [hnone]
    dsimp only
    rw [if_neg (by decide), scheduleRetryTimerF_retryState]
    dsimp only
    exact mapGet_mapSet_self _ _ _


/-! ### Session monotonicity and the write log -/

/-- The `finally` block never touches the session counter, the write
log, the stopped flag or the retry state. -/
theorem finallyCore_fields (st : PState) (ctx : BatchCtx) :
    (finallyCore st ctx).processingSession = st.processingSession ∧
    (finallyCore st ctx).writeLog = st.writeLog ∧
    (finallyCore st ctx).stopped = st.stopped ∧
    (finallyCore st ctx).retryState = st.retryState ∧
    (finallyCore st ctx).retryTimer = st.retryTimer := by
  unfold finallyCore
  dsimp only
  repeat' split
  all_goals
    refine ⟨?_, ?_, ?_, ?_, ?_⟩ <;>
      first
        | rfl
        | exact (queueFilesF_fields _ _).2.2.1
        | exact (queueFilesF_fields _ _).2.2.2.2.2.2.2.2.2.1
        | exact (queueFilesF_fields _ _).2.1
        | exact (queueFilesF_fields _ _).2.2.2.2.1
        | exact (queueFilesF_fields _ _).2.2.2.2.2.1

/-- `batchBegin` never touches the session counter or the write log. -/
theorem batchBeginF_fields (st : PState) (needs : String → Bool)
    (dbm : String → Nat) :
    (batchBeginF st needs dbm).processingSession = st.processingSession ∧
    (batchBeginF st needs dbm).writeLog = st.writeLog := by
  unfold batchBeginF
  dsimp only
  split
  · exact ⟨rfl, rfl⟩
  · split
    · exact ⟨(finallyCore_fields _ _).1, (finallyCore_fields _ _).2.1⟩
    · exact ⟨rfl, rfl⟩

theorem chunkDispatchF_fields (st : PState) (id : Nat) :
    (chunkDispatchF st id).processingSession = st.processingSession ∧
    (chunkDispatchF st id).writeLog = st.writeLog := by
  unfold chunkDispatchF
  cases st.batches.find? (fun b => b.id = id) with
  | none => exact ⟨rfl, rfl⟩
  | some b =>
    dsimp only
    split
    · exact ⟨rfl, rfl⟩
    · split <;> exact ⟨rfl, rfl⟩

theorem chunkCompleteF_fields (st : PState) (id : Nat)
    (outcomes : String → Outcome) (now : Nat) :
    (chunkCompleteF st id outcomes now).processingSession =
      st.processingSession ∧
    (chunkCompleteF st id outcomes now).writeLog = st.writeLog := by
  unfold chunkCompleteF
  cases st.batches.find? (fun b => b.id = id) with
  | none => exact ⟨rfl, rfl⟩
  | some b =>
    dsimp only
    split
    · exact ⟨rfl, rfl⟩
    · have hro := retryOnly_foldl_handleResult b.session b.signalAborted now
        (b.chunk.map (fun aj => (aj, outcomeResult (outcomes aj.job.file.path))))
        (st, [], [])
      exact ⟨hro.2.2.2.2.2.2.2.2.1, hro.2.2.2.2.2.2.2.2.2.2.2.2⟩

theorem writeStepF_fields (st : PState) (id : Nat) (shutdown : Bool) :
    (writeStepF st id shutdown).processingSession = st.processingSession := by
  unfold writeStepF
  cases st.batches.find? (fun b => b.id = id) with
  | none => rfl
  | some b =>
    dsimp only
    split
    · rfl
    · split <;> rfl

theorem finallyStepF_fields (st : PState) (id : Nat) :
    (finallyStepF st id).processingSession = st.processingSession ∧
    (finallyStepF st id).writeLog = st.writeLog := by
  unfold finallyStepF
  cases st.batches.find? (fun b => b.id = id) with
  | none => exact ⟨rfl, rfl⟩
  | some b =>
    dsimp only
    split
    · exact ⟨rfl, rfl⟩
    · exact ⟨(finallyCore_fields _ _).1, (finallyCore_fields _ _).2.1⟩

theorem stopProcessingF_fields (st : PState) :
    (stopProcessingF st).processingSession = st.processingSession + 1 ∧
    (stopProcessingF st).writeLog = st.writeLog := by
  unfold stopProcessingF clearRetryStateF clearRetryTimerF
  cases st.abortOwner <;> exact ⟨rfl, rfl⟩

theorem flushRetriesF_fields (st : PState) (session now : Nat)
    (vault : String → Option TFile) :
    (flushRetriesF st session now vault).processingSession =
      st.processingSession ∧
    (flushRetriesF st session now vault).writeLog = st.writeLog := by
  unfold flushRetriesF
  split
  · exact ⟨rfl, rfl⟩
  · dsimp only
    constructor
    · rw [(retryOnly_scheduleRetryTimerF _ _).2.2.2.2.2.2.2.2.1]
      split
      · exact (queueFilesF_fields _ _).2.2.1
      · rfl
    · rw [(retryOnly_scheduleRetryTimerF _ _).2.2.2.2.2.2.2.2.2.2.2.2]
      split
      · exact (queueFilesF_fields _ _).2.2.2.2.2.2.2.2.2.1
      · rfl

theorem retryFireF_fields (st : PState) (now : Nat)
    (vault : String → Option TFile) :
    (retryFireF st now vault).processingSession = st.processingSession ∧
    (retryFireF st now vault).writeLog = st.writeLog := by
  unfold retryFireF
  cases st.retryTimer with
  | none => exact ⟨rfl, rfl⟩
  | some t =>
    dsimp only
    split
    · exact ⟨(flushRetriesF_fields _ _ _ _).1, (flushRetriesF_fields _ _ _ _).2⟩
    · exact ⟨rfl, rfl⟩

/-- No event ever decreases the session counter, and only
`stopProcessing` changes it (by one). -/
theorem stepE_session_mono (e : Event) (st : PState) :
    st.processingSession ≤ (stepE e st).processingSession := by
  cases e with
  | queueFiles files =>
    rw [show stepE (.queueFiles files) st = queueFilesF st files from rfl,
      (queueFilesF_fields st files).2.2.1]
  | startProcessing settings => exact Nat.le_refl _
  | onSettingsChanged settings => exact Nat.le_refl _
  | debounceFire => exact Nat.le_refl _
  | batchBegin needs dbm =>
    rw [show stepE (.batchBegin needs dbm) st = batchBeginF st needs dbm
      from rfl, (batchBeginF_fields st needs dbm).1]
  | chunkDispatch id =>
    rw [show stepE (.chunkDispatch id) st = chunkDispatchF st id from rfl,
      (chunkDispatchF_fields st id).1]
  | chunkComplete id outcomes now =>
    rw [show stepE (.chunkComplete id outcomes now) st =
      chunkCompleteF st id outcomes now from rfl,
      (chunkCompleteF_fields st id outcomes now).1]
  | writeStep id shutdown =>
    rw [show stepE (.writeStep id shutdown) st = writeStepF st id shutdown
      from rfl, writeStepF_fields st id shutdown]
  | finallyStep id =>
    rw [show stepE (.finallyStep id) st = finallyStepF st id from rfl,
      (finallyStepF_fields st id).1]
  | stopProcessing =>
    rw [show stepE .stopProcessing st = stopProcessingF st from rfl,
      (stopProcessingF_fields st).1]
    exact Nat.le_succ _
  | retryFire now vault =>
    rw [show stepE (.retryFire now vault) st = retryFireF st now vault
      from rfl, (retryFireF_fields st now vault).1]

/-- Any write-log entry an event adds carries the current session: the
write guard in `processNextBatch` only lets a batch write when its
captured session equals the current one (and the provider is neither
stopped nor aborted). -/
theorem stepE_writeLog (e : Event) (st : PState) :
    ∀ s ∈ (stepE e st).writeLog, s ∈ st.writeLog ∨ s = st.processingSession := by
  intro s hs
  cases e with
  | queueFiles files =>
    rw [show stepE (.queueFiles files) st = queueFilesF st files from rfl,
      (queueFilesF_fields st files).2.2.2.2.2.2.2.2.2.1] at hs
    exact Or.inl hs
  | startProcessing settings => exact Or.inl hs
  | onSettingsChanged settings => exact Or.inl hs
  | debounceFire => exact Or.inl hs
  | batchBegin needs dbm =>
    rw [show stepE (.batchBegin needs dbm) st = batchBeginF st needs dbm
      from rfl, (batchBeginF_fields st needs dbm).2] at hs
    exact Or.inl hs
  | chunkDispatch id =>
    rw [show stepE (.chunkDispatch id) st = chunkDispatchF st id from rfl,
      (chunkDispatchF_fields st id).2] at hs
    exact Or.inl hs
  | chunkComplete id outcomes now =>
    rw [show stepE (.chunkComplete id outcomes now) st =
      chunkCompleteF st id outcomes now from rfl,
      (chunkCompleteF_fields st id outcomes now).2] at hs
    exact Or.inl hs
  | writeStep id shutdown =>
    rw [show stepE (.writeStep id shutdown) st = writeStepF st id shutdown
      from rfl] at hs
    unfold writeStepF at hs
    revert hs
    cases hfind : st.batches.find? (fun b => b.id = id) with
    | none => exact fun hs => Or.inl hs
    | some b =>
      dsimp only
      split
      · exact fun hs => Or.inl hs
      · rw [show (updateCtx (if ¬(st.stopped = true ∨ b.signalAborted = true ∨
            st.processingSession ≠ b.session) ∧
            (b.updates ≠ [] ∨ b.processedMtimeUpdates ≠ []) ∧
            ¬shutdown = true then
              { st with writeLog := st.writeLog ++ [b.session] }
            else st) id
            (fun c => { c with phase := BatchPhase.finalizing })).writeLog =
          (if ¬(st.stopped = true ∨ b.signalAborted = true ∨
            st.processingSession ≠ b.session) ∧
            (b.updates ≠ [] ∨ b.processedMtimeUpdates ≠ []) ∧
            ¬shutdown = true then
              { st with writeLog := st.writeLog ++ [b.session] }
            else st).writeLog from rfl]
        split
        · rename_i hguard
          intro hs
          rw [show ({ st with writeLog := st.writeLog ++ [b.session] }
              : PState).writeLog = st.writeLog ++ [b.session] from rfl,
            List.mem_append] at hs
          rcases hs with hs | hs
          · exact Or.inl hs
          · right
            rw [List.mem_singleton] at hs
            subst hs
            rcases hguard with ⟨hg1, -, -⟩
            by_cases hb : st.processingSession = b.session
            · exact hb.symm
            · exact absurd (Or.inr (Or.inr hb)) hg1
        · exact fun hs => Or.inl hs
  | finallyStep id =>
    rw [show stepE (.finallyStep id) st = finallyStepF st id from rfl,
      (finallyStepF_fields st id).2] at hs
    exact Or.inl hs
  | stopProcessing =>
    rw [show stepE .stopProcessing st = stopProcessingF st from rfl,
      (stopProcessingF_fields st).2] at hs
    exact Or.inl hs
  | retryFire now vault =>
    rw [show stepE (.retryFire now vault) st = retryFireF st now vault
      from rfl, (retryFireF_fields st now vault).2] at hs
    exact Or.inl hs


/-! ### Run-level facts and claim C1 -/

theorem run_session_mono (es : List Event) (st : PState) :
    st.processingSession ≤ (run es st).processingSession := by
  induction es generalizing st with
  | nil => exact Nat.le_refl _
  | cons e es ih =>
    exact Nat.le_trans (stepE_session_mono e st) (ih (stepE e st))

theorem run_writeLog_bound (es : List Event) (st : PState) (n : Nat)
    (hn : n ≤ st.processingSession) :
    ∀ s ∈ (run es st).writeLog, s ∈ st.writeLog ∨ n ≤ s := by
  induction es generalizing st with
  | nil => exact fun s hs => Or.inl hs
  | cons e es ih =>
    intro s hs
    have hn' : n ≤ (stepE e st).processingSession :=
      Nat.le_trans hn (stepE_session_mono e st)
    rcases ih (stepE e st) hn' s hs with h | h
    · rcases stepE_writeLog e st s h with h' | h'
      · exact Or.inl h'
      · exact Or.inr (by rw [h']; exact hn)
    · exact Or.inr h

/-- **C1.**  Once `stopProcessing()` has run, the batched database write
of any batch that was in flight under an earlier session is never
issued: the session counter only grows, `stopProcessing` bumps it past
every in-flight batch's captured session, and the guard before
`batchUpdateFileContentAndProviderProcessedMtimes` re-checks the
captured session (with the stopped flag and abort signal) — so every
write issued after the stop carries a session strictly greater than the
stale batch's, no matter what events (including `startProcessing`)
follow. -/
theorem claim_C1_no_stale_session_write (st : PState) (b : BatchCtx)
    (es : List Event) (hb : b ∈ st.batches)
    (hsess : b.session ≤ st.processingSession) :
    ∀ s ∈ (run es (stepE Event.stopProcessing st)).writeLog,
      s ∈ st.writeLog ∨ b.session < s := by
  intro s hs
  have hstop : (stepE Event.stopProcessing st).processingSession =
      st.processingSession + 1 := (stopProcessingF_fields st).1
  have hlog : (stepE Event.stopProcessing st).writeLog = st.writeLog :=
    (stopProcessingF_fields st).2
  have hbound := run_writeLog_bound es (stepE Event.stopProcessing st)
    (st.processingSession + 1) (by rw [hstop]) s hs
  rcases hbound with h | h
  · rw [hlog] at h
    exact Or.inl h
  · right
    omega

/-- Witness for C1: a concrete state with a batch parked at its
`finally` point, stopped and restarted. -/
theorem claim_C1_no_stale_session_write_witness :
    ctxFinalizing ∈ stFinalizing.batches ∧
    ctxFinalizing.session ≤ stFinalizing.processingSession ∧
    ∀ s ∈ (run [Event.startProcessing 2, Event.finallyStep 7]
        (stepE Event.stopProcessing stFinalizing)).writeLog,
      s ∈ stFinalizing.writeLog ∨ ctxFinalizing.session < s :=
  ⟨by decide, by decide,
    claim_C1_no_stale_session_write stFinalizing ctxFinalizing
      [Event.startProcessing 2, Event.finallyStep 7] (by decide) (by decide)⟩

/-! ### The bookkeeping invariant (claims C2 and C10) -/

theorem foldl_setDel_subset (ajs : List ActiveJob) (s : List String)
    (p : String)
    (hp : p ∈ ajs.foldl (fun acc aj => setDel acc aj.job.file.path) s) :
    p ∈ s := by
  have hfold : ajs.foldl (fun acc aj => setDel acc aj.job.file.path) s =
      (ajs.map (fun aj => aj.job.file.path)).foldl setDel s := by
    rw [List.foldl_map]
  rw [hfold, foldl_setDel_eq_filter] at hp
  exact (List.mem_filter.mp hp).1

theorem inv_of_retryOnly {a b : PState} (h : RetryOnly a b) (ha : Inv a) :
    Inv b := by
  obtain ⟨e1, e2, e3, e4, e5, e6, e7, e8, e9, e10, e11, e12, e13⟩ := h
  obtain ⟨h1, h2, h3, h4, h5⟩ := ha
  refine ⟨?_, ?_, ?_, ?_, ?_⟩
  · rw [e6, e1, h1]
  · rw [e6]
    exact h2
  · intro hstop
    rw [e8] at hstop
    rw [e1]
    exact h3 hstop
  · intro p hp
    rw [e6] at hp
    rw [e5]
    exact h4 p hp
  · intro p hp
    rw [e7] at hp
    rw [e5]
    exact h5 p hp

theorem queueFilesF_inv (st : PState) (files : List TFile) (h : Inv st) :
    Inv (queueFilesF st files) := by
  obtain ⟨h1, h2, h3, h4, h5⟩ := h
  cases hstop : st.stopped
  · have hq := queueFilesF_queue hstop files
    have hqf := queueFilesF_queuedFiles hstop files
    have hd := queueFilesF_dirty hstop files
    have hf := queueFilesF_fields st files
    obtain ⟨delta, e1, e2, e3, e4, e5⟩ := qfLoop_delta st.processingFiles files
      [] st.queuedFiles st.dirtyFilesDuringProcessing
    refine ⟨?_, ?_, ?_, ?_, ?_⟩
    · rw [hqf, hq, e2, e1]
      simp [h1]
    · rw [hqf, e2]
      exact e4 h2
    · intro hstop'
      rw [hf.2.1, hstop] at hstop'
      exact absurd hstop' (by simp)
    · intro p hp
      rw [hqf, e2, List.mem_append] at hp
      rw [hf.1]
      rcases hp with hp | hp
      · exact h4 p hp
      · rw [List.mem_map] at hp
        obtain ⟨j, hj, rfl⟩ := hp
        exact (e3 j hj).1
    · intro p hp
      rw [hd] at hp
      rw [hf.1]
      rcases e5 p hp with hp' | hp'
      · exact h5 p hp'
      · exact hp'
  · rw [queueFilesF_of_stopped hstop]
    exact ⟨h1, h2, h3, h4, h5⟩

theorem inv_mk_wrapper (x : PState) (ip : Bool) (bs : List BatchCtx)
    (h : Inv x) : Inv { x with isProcessing := ip, batches := bs } := h

theorem finallyCore_inv (st : PState) (ctx : BatchCtx) (h : Inv st) :
    Inv (finallyCore st ctx) := by
  obtain ⟨h1, h2, h3, h4, h5⟩ := h
  have hsub : ∀ p, p ∈ ctx.activeJobs.foldl
      (fun acc aj => setDel acc aj.job.file.path) st.processingFiles →
      p ∈ st.processingFiles := fun p hp => foldl_setDel_subset _ _ p hp
  unfold finallyCore
  dsimp only
  repeat' split
  all_goals first
    | exact inv_mk_wrapper _ _ _ (queueFilesF_inv _ _ ⟨h1, h2, h3,
        fun p hp hmem => h4 p hp (hsub p hmem),
        fun p hp => absurd hp (List.not_mem_nil p)⟩)
    | exact inv_mk_wrapper _ _ _ (queueFilesF_inv _ _ ⟨h1, h2, h3, h4,
        fun p hp => absurd hp (List.not_mem_nil p)⟩)
    | exact inv_mk_wrapper _ _ _ ⟨h1, h2, h3,
        fun p hp hmem => h4 p hp (hsub p hmem),
        fun p hp => absurd hp (List.not_mem_nil p)⟩
    | exact inv_mk_wrapper _ _ _ ⟨h1, h2, h3, h4,
        fun p hp => absurd hp (List.not_mem_nil p)⟩
    | exact inv_mk_wrapper _ _ _ ⟨h1, h2, h3,
        fun p hp hmem => h4 p hp (hsub p hmem), h5⟩
    | exact inv_mk_wrapper _ _ _ ⟨h1, h2, h3, h4, h5⟩


theorem inv_mk_batches (x : PState) (bs : List BatchCtx) (h : Inv x) :
    Inv { x with batches := bs } := h

theorem foldl_setAdd_activeJobs (ajs : List ActiveJob) (s : List String)
    (q : String) :
    q ∈ ajs.foldl (fun acc aj => setAdd acc aj.job.file.path) s ↔
      q ∈ s ∨ q ∈ ajs.map (fun aj => aj.job.file.path) := by
  rw [show ajs.foldl (fun acc aj => setAdd acc aj.job.file.path) s =
    (ajs.map (fun aj => aj.job.file.path)).foldl setAdd s by
      rw [List.foldl_map]]
  exact foldl_setAdd_mem

theorem filter_append_not_mem (tp dp : List String) (hd : tp.Disjoint dp) :
    (tp ++ dp).filter (fun q => q ∉ tp) = dp := by
  rw [List.filter_append]
  have t1 : tp.filter (fun q => q ∉ tp) = [] := by
    rw [List.filter_eq_nil_iff]
    intro a ha
    simp [ha]
  have t2 : dp.filter (fun q => q ∉ tp) = dp := by
    rw [List.filter_eq_self]
    intro a ha
    have hnt : a ∉ tp := fun hta => hd hta ha
    simp [hnt]
  rw [t1, t2, List.nil_append]

theorem batchBeginF_inv (st : PState) (needs : String → Bool)
    (dbm : String → Nat) (h : Inv st) : Inv (batchBeginF st needs dbm) := by
  obtain ⟨h1, h2, h3, h4, h5⟩ := h
  unfold batchBeginF
  dsimp only
  split
  · exact ⟨h1, h2, h3, h4, h5⟩
  · rename_i hguard
    have hnstop : st.stopped = false := by
      cases hst : st.stopped
      · rfl
      · exact absurd (Or.inl hst) hguard
    have hpaths : st.queuedFiles =
        (st.queue.take QUEUE_BATCH_SIZE).map (fun j => j.file.path) ++
          (st.queue.drop QUEUE_BATCH_SIZE).map (fun j => j.file.path) := by
      rw [h1, ← List.map_append, List.take_append_drop]
    have hnd2 : ((st.queue.take QUEUE_BATCH_SIZE).map
        (fun j => j.file.path) ++
        (st.queue.drop QUEUE_BATCH_SIZE).map (fun j => j.file.path)).Nodup := by
      rw [← hpaths]
      exact h2
    have hdisj := List.disjoint_of_nodup_append hnd2
    have hfold : (st.queue.take QUEUE_BATCH_SIZE).foldl
        (fun s j => setDel s j.file.path) st.queuedFiles =
        (st.queue.drop QUEUE_BATCH_SIZE).map (fun j => j.file.path) := by
      rw [show (st.queue.take QUEUE_BATCH_SIZE).foldl
          (fun s j => setDel s j.file.path) st.queuedFiles =
          ((st.queue.take QUEUE_BATCH_SIZE).map (fun j => j.file.path)).foldl
            setDel st.queuedFiles by rw [List.foldl_map],
        foldl_setDel_eq_filter, hpaths]
      exact filter_append_not_mem _ _ hdisj
    have hinv1 : ∀ p, p ∈ (st.queue.take QUEUE_BATCH_SIZE).foldl
        (fun s j => setDel s j.file.path) st.queuedFiles →
        p ∉ st.processingFiles := by
      intro p hp
      rw [hfold] at hp
      exact h4 p (by rw [hpaths]; exact List.mem_append_right _ hp)
    have hstopfact : st.stopped = true → False := by
      intro hh
      rw [hnstop] at hh
      exact absurd hh (by simp)
    split
    · refine finallyCore_inv _ _ ⟨hfold, ?_, fun hh => absurd hh ?_, hinv1, h5⟩
      · rw [hfold]
        exact (List.nodup_append.mp hnd2).2.1
      · intro hh
        exact hstopfact hh
    · have hactive : ∀ p : String,
          p ∈ (((st.queue.take QUEUE_BATCH_SIZE).filter
              (fun j => needs j.file.path)).map
              (fun j => ({ job := j, expectedProviderMtime := dbm j.file.path }
                : ActiveJob))).map (fun aj => aj.job.file.path) →
          p ∈ (st.queue.take QUEUE_BATCH_SIZE).map (fun j => j.file.path) := by
        intro p hp
        rw [List.map_map, List.mem_map] at hp
        obtain ⟨j, hj, rfl⟩ := hp
        exact List.mem_map_of_mem _ (List.mem_of_mem_filter hj)
      refine ⟨hfold, ?_, fun hh => absurd hh (fun hh' => hstopfact hh'), ?_, ?_⟩
      · rw [hfold]
        exact (List.nodup_append.mp hnd2).2.1
      · intro p hp hmem
        rw [foldl_setAdd_activeJobs] at hmem
        rcases hmem with hmem | hmem
        · exact hinv1 p hp hmem
        · have hpt : p ∈ (st.queue.take QUEUE_BATCH_SIZE).map
              (fun j => j.file.path) := hactive p hmem
          rw [hfold] at hp
          exact hdisj hpt hp
      · intro p hp
        rw [foldl_setAdd_activeJobs]
        exact Or.inl (h5 p hp)


theorem chunkDispatchF_inv (st : PState) (id : Nat) (h : Inv st) :
    Inv (chunkDispatchF st id) := by
  unfold chunkDispatchF
  cases st.batches.find? (fun b => b.id = id) with
  | none => exact h
  | some b =>
    dsimp only
    split
    · exact h
    · split <;> exact h

theorem chunkCompleteF_inv (st : PState) (id : Nat)
    (outcomes : String → Outcome) (now : Nat) (h : Inv st) :
    Inv (chunkCompleteF st id outcomes now) := by
  unfold chunkCompleteF
  cases st.batches.find? (fun b => b.id = id) with
  | none => exact h
  | some b =>
    dsimp only
    split
    · exact h
    · have hro := inv_of_retryOnly (retryOnly_foldl_handleResult b.session
        b.signalAborted now
        (b.chunk.map (fun aj => (aj, outcomeResult (outcomes aj.job.file.path))))
        (st, [], [])) h
      exact hro

theorem writeStepF_inv (st : PState) (id : Nat) (shutdown : Bool)
    (h : Inv st) : Inv (writeStepF st id shutdown) := by
  unfold writeStepF
  cases st.batches.find? (fun b => b.id = id) with
  | none => exact h
  | some b =>
    dsimp only
    split
    · exact h
    · split <;> exact h

theorem finallyStepF_inv (st : PState) (id : Nat) (h : Inv st) :
    Inv (finallyStepF st id) := by
  unfold finallyStepF
  cases st.batches.find? (fun b => b.id = id) with
  | none => exact h
  | some b =>
    dsimp only
    split
    · exact h
    · exact finallyCore_inv _ _ h

theorem stopProcessingF_inv (st : PState) : Inv (stopProcessingF st) := by
  have hfields : (stopProcessingF st).queue = [] ∧
      (stopProcessingF st).queuedFiles = [] ∧
      (stopProcessingF st).processingFiles = [] ∧
      (stopProcessingF st).dirtyFilesDuringProcessing = [] := by
    unfold stopProcessingF clearRetryStateF clearRetryTimerF
    cases st.abortOwner <;> exact ⟨rfl, rfl, rfl, rfl⟩
  refine ⟨?_, ?_, ?_, ?_, ?_⟩
  · rw [hfields.1, hfields.2.1]
    rfl
  · rw [hfields.2.1]
    exact List.nodup_nil
  · intro _
    exact hfields.1
  · intro p hp
    rw [hfields.2.1] at hp
    exact absurd hp (List.not_mem_nil p)
  · intro p hp
    rw [hfields.2.2.2] at hp
    exact absurd hp (List.not_mem_nil p)

theorem flushRetriesF_inv (st : PState) (session now : Nat)
    (vault : String → Option TFile) (h : Inv st) :
    Inv (flushRetriesF st session now vault) := by
  unfold flushRetriesF
  split
  · exact inv_of_retryOnly (retryOnly_clearRetryStateF st) h
  · dsimp only
    apply inv_of_retryOnly (retryOnly_scheduleRetryTimerF _ _)
    split
    · exact queueFilesF_inv _ _ (inv_of_retryOnly (retryOnly_retrySet st _) h)
    · exact inv_of_retryOnly (retryOnly_retrySet st _) h

theorem retryFireF_inv (st : PState) (now : Nat)
    (vault : String → Option TFile) (h : Inv st) :
    Inv (retryFireF st now vault) := by
  unfold retryFireF
  cases st.retryTimer with
  | none => exact h
  | some t =>
    dsimp only
    split
    · exact flushRetriesF_inv _ _ _ _ h
    · exact h

/-- Every event preserves the bookkeeping invariant. -/
theorem stepE_inv (e : Event) (st : PState) (h : Inv st) :
    Inv (stepE e st) := by
  cases e with
  | queueFiles files => exact queueFilesF_inv st files h
  | startProcessing settings =>
    obtain ⟨h1, h2, h3, h4, h5⟩ := h
    exact ⟨h1, h2, fun hh => absurd hh Bool.false_ne_true, h4, h5⟩
  | onSettingsChanged settings => exact h
  | debounceFire => exact h
  | batchBegin needs dbm => exact batchBeginF_inv st needs dbm h
  | chunkDispatch id => exact chunkDispatchF_inv st id h
  | chunkComplete id outcomes now => exact chunkCompleteF_inv st id outcomes now h
  | writeStep id shutdown => exact writeStepF_inv st id shutdown h
  | finallyStep id => exact finallyStepF_inv st id h
  | stopProcessing => exact stopProcessingF_inv st
  | retryFire now vault => exact retryFireF_inv st now vault h

theorem run_inv (es : List Event) (st : PState) (h : Inv st) :
    Inv (run es st) := by
  induction es generalizing st with
  | nil => exact h
  | cons e es ih => exact ih (stepE e st) (stepE_inv e st h)

theorem inv_initState : Inv initState :=
  ⟨rfl, List.nodup_nil, fun _ => rfl,
    fun p hp => absurd hp (List.not_mem_nil p),
    fun p hp => absurd hp (List.not_mem_nil p)⟩

/-- The bookkeeping invariant holds in every reachable state. -/
theorem reachable_inv (st : PState) (h : Reachable st) : Inv st := by
  obtain ⟨es, rfl⟩ := h
  exact run_inv es initState inv_initState


/-! ### Claims C2 and C10 -/

/-- **C2 counterexample.**  The three tracking structures are not
pairwise disjoint: driving the provider through one `startProcessing`,
one enqueue, one batch start and a second enqueue of the same file puts
the path simultaneously in the processing set and in the
dirty-during-processing map. -/
theorem claim_C2_counterexample_processing_and_dirty :
    Reachable (run traceDirtyWhileProcessing initState) ∧
    "notes/a.md" ∈ (run traceDirtyWhileProcessing initState).processingFiles ∧
    "notes/a.md" ∈ mapKeys
      (run traceDirtyWhileProcessing initState).dirtyFilesDuringProcessing :=
  ⟨⟨traceDirtyWhileProcessing, rfl⟩, by decide, by decide⟩

/-- **C2 (amended).**  In every reachable state the queued-files set is
disjoint from both the processing set and the dirty-during-processing
map; but a path enqueued while mid-processing lives in the dirty map
*and* the processing set simultaneously (every dirty key is marked
processing), so full pairwise disjointness of the three structures fails
exactly on the processing/dirty pair. -/
theorem claim_C2_tracking_disjointness (st : PState) (h : Reachable st) :
    (∀ p ∈ st.queuedFiles, p ∉ st.processingFiles ∧
      p ∉ mapKeys st.dirtyFilesDuringProcessing) ∧
    (∀ p ∈ mapKeys st.dirtyFilesDuringProcessing, p ∈ st.processingFiles) := by
  obtain ⟨-, -, -, h4, h5⟩ := reachable_inv st h
  refine ⟨fun p hp => ⟨h4 p hp, fun hd => h4 p hp (h5 p hd)⟩, h5⟩

/-- Witness for C2 (amended) at the concrete reachable state of the
counterexample trace. -/
theorem claim_C2_tracking_disjointness_witness :
    Reachable (run traceDirtyWhileProcessing initState) ∧
    ((∀ p ∈ (run traceDirtyWhileProcessing initState).queuedFiles,
        p ∉ (run traceDirtyWhileProcessing initState).processingFiles ∧
        p ∉ mapKeys
          (run traceDirtyWhileProcessing initState).dirtyFilesDuringProcessing) ∧
      (∀ p ∈ mapKeys
          (run traceDirtyWhileProcessing initState).dirtyFilesDuringProcessing,
        p ∈ (run traceDirtyWhileProcessing initState).processingFiles)) :=
  ⟨⟨traceDirtyWhileProcessing, rfl⟩,
    claim_C2_tracking_disjointness (run traceDirtyWhileProcessing initState)
      ⟨traceDirtyWhileProcessing, rfl⟩⟩

theorem countP_map_nodup_mem {l : List ContentJob} {p : String}
    (hnd : (l.map (fun j => j.file.path)).Nodup)
    (hp : p ∈ l.map (fun j => j.file.path)) :
    l.countP (fun j => j.file.path = p) = 1 := by
  induction l with
  | nil => simp at hp
  | cons j l ih =>
    rw [List.map_cons] at hnd hp
    rw [List.countP_cons]
    by_cases hj : j.file.path = p
    · have hrest : l.countP (fun j' => j'.file.path = p) = 0 := by
        rw [List.countP_eq_zero]
        intro j' hj'
        simp only [decide_eq_true_eq]
        intro hq
        apply (List.nodup_cons.mp hnd).1
        rw [hj, ← hq]
        exact List.mem_map_of_mem _ hj'
      rw [hrest]
      simp [hj]
    · have hp' : p ∈ l.map (fun j => j.file.path) := by
        rcases List.mem_cons.mp hp with h | h
        · exact absurd h.symm hj
        · exact h
      rw [ih (List.nodup_cons.mp hnd).2 hp']
      simp [hj]

/-- **C10.**  In every reachable state the queued-files set holds
exactly the paths of the jobs in the pending queue — every queued job's
path is in the set and every path in the set corresponds to exactly one
job — and while the provider is stopped both are empty and `queueFiles`
is a no-op. -/
theorem claim_C10_queuedFiles_mirrors_queue (st : PState)
    (h : Reachable st) :
    (∀ j ∈ st.queue, j.file.path ∈ st.queuedFiles) ∧
    (∀ p ∈ st.queuedFiles, st.queue.countP (fun j => j.file.path = p) = 1) ∧
    (st.stopped = true → st.queue = [] ∧ st.queuedFiles = [] ∧
      ∀ files, queueFilesF st files = st) := by
  obtain ⟨h1, h2, h3, -, -⟩ := reachable_inv st h
  refine ⟨?_, ?_, ?_⟩
  · intro j hj
    rw [h1]
    exact List.mem_map_of_mem _ hj
  · intro p hp
    rw [h1] at hp
    exact countP_map_nodup_mem (h1 ▸ h2) hp
  · intro hstop
    refine ⟨h3 hstop, ?_, fun files => queueFilesF_of_stopped hstop files⟩
    rw [h1, h3 hstop]
    rfl

/-- Witness for C10 at a reachable state with one pending job. -/
theorem claim_C10_queuedFiles_mirrors_queue_witness :
    Reachable (run traceOnePending initState) ∧
    ((∀ j ∈ (run traceOnePending initState).queue,
        j.file.path ∈ (run traceOnePending initState).queuedFiles) ∧
      (∀ p ∈ (run traceOnePending initState).queuedFiles,
        (run traceOnePending initState).queue.countP
          (fun j => j.file.path = p) = 1) ∧
      ((run traceOnePending initState).stopped = true →
        (run traceOnePending initState).queue = [] ∧
        (run traceOnePending initState).queuedFiles = [] ∧
        ∀ files, queueFilesF (run traceOnePending initState) files =
          run traceOnePending initState)) :=
  ⟨⟨traceOnePending, rfl⟩,
    claim_C10_queuedFiles_mirrors_queue (run traceOnePending initState)
      ⟨traceOnePending, rfl⟩⟩


/-! ### Witnesses for the remaining claims -/

/-- Witness for C3: with a concrete entry at 5 attempts, the 6th failure
removes it. -/
theorem claim_C3_retry_exhaustion_drops_path_witness :
    stMaxRetries.stopped = false ∧
    mapGet stMaxRetries.retryState fileA.path =
      some ⟨RETRY_MAX_ATTEMPTS, 0⟩ ∧
    (⟨RETRY_MAX_ATTEMPTS, 0⟩ : RetryEntry).attempts = RETRY_MAX_ATTEMPTS ∧
    mapGet (scheduleRetryF stMaxRetries fileA
        stMaxRetries.processingSession 200).retryState fileA.path = none :=
  ⟨rfl, by decide, rfl,
    claim_C3_retry_exhaustion_drops_path.1 stMaxRetries fileA 200
      ⟨RETRY_MAX_ATTEMPTS, 0⟩ rfl (by decide) rfl⟩

/-- Witness for C6 at a concrete `finally` state with one dirty file. -/
theorem claim_C6_dirty_defer_and_replay_witness :
    stFinalizing.batches.find? (fun c => c.id = ctxFinalizing.id) =
      some ctxFinalizing ∧
    ((finallyStepF stFinalizing ctxFinalizing.id).queue.countP
        (fun j => j.file.path = "notes/a.md") = 1 ∧
      mapGet (finallyStepF stFinalizing
          ctxFinalizing.id).dirtyFilesDuringProcessing "notes/a.md" = none ∧
      "notes/a.md" ∈ (finallyStepF stFinalizing ctxFinalizing.id).queuedFiles) :=
  ⟨by decide,
    claim_C6_dirty_defer_and_replay.2.2 stFinalizing ctxFinalizing
      "notes/a.md" fileA2 (by decide) (by decide) (by decide) rfl (by decide)
      (by decide) (by decide) (by decide) (by decide) rfl⟩

/-- Witness for C8: a throwing single-job chunk registers the path for
retry with one attempt. -/
theorem claim_C8_exception_is_not_processed_witness :
    stInflight.batches.find? (fun c => c.id = ctxInflight.id) =
      some ctxInflight ∧
    mapGet (chunkCompleteF stInflight ctxInflight.id
        (fun _ => Outcome.thrown) 100).retryState "notes/a.md" =
      some ⟨1, 100 + retryDelay 1⟩ :=
  ⟨by decide,
    claim_C8_exception_is_not_processed.2.2 stInflight ctxInflight ajA
      (fun _ => Outcome.thrown) 100 (by decide) (by decide) (by decide)
      (by decide) rfl (by decide) (by decide) rfl⟩

/-- Witness for C9 at a concrete elapsed entry whose path resolves. -/
theorem claim_C9_flush_retries_behavior_witness :
    stMaxRetries.stopped = false ∧ stMaxRetries.retryState ≠ [] ∧
    (mapKeys stMaxRetries.retryState).Nodup ∧
    mapGet (flushRetriesF stMaxRetries stMaxRetries.processingSession 100
        vaultA).retryState "notes/a.md" =
      some ⟨RETRY_MAX_ATTEMPTS, RETRY_UNSCHEDULED_AT⟩ :=
  ⟨rfl, by decide, by decide,
    ((claim_C9_flush_retries_behavior stMaxRetries 100 vaultA rfl (by decide)
        (by decide)).2.2.1 "notes/a.md" ⟨RETRY_MAX_ATTEMPTS, 0⟩ (by decide)
      (by decide)).1 fileA (by decide)⟩

end NotebookNavigator
